import Mathlib

/-!
Verification of the voter-roll extraction pipeline: a shallow embedding of
`voter_data_extractor.py` (grid reconstruction from vector line segments,
text-span classification, card building, batch aggregation) and of the
collective partition pass of `scracth2.py`, with theorems settling the
frozen claims about them.

Coordinates are embedded as rationals (the source works on Python floats and
performs only comparisons, additions and halving on them); Python's `round`
(banker's rounding, half to even) is embedded exactly as `pyRound`; Python
dicts are embedded as insertion-ordered association lists, and `defaultdict`
accumulation of span assignments as a flat list of `(cell_id, span)` pairs,
whose per-key restriction (`cellSpans`) is the dict's value at a key.
-/

namespace VoterData

/-- A drawing primitive as built in `extract_complete_page_data`:
bounding coordinates with derived width/height/area fields. -/
structure PyRect where
  x0 : ℚ
  y0 : ℚ
  x1 : ℚ
  y1 : ℚ
  width : ℚ
  height : ℚ
  area : ℚ
deriving DecidableEq

/-- A horizontal line segment as collected in `detect_grid_from_rectangles`:
`{'y': rect.y0, 'x0': rect.x0, 'x1': rect.x1, 'width': rect.width}`. -/
structure HSeg where
  y : ℚ
  x0 : ℚ
  x1 : ℚ
  width : ℚ
deriving DecidableEq

/-- A vertical line segment:
`{'x': rect.x0, 'y0': rect.y0, 'y1': rect.y1, 'height': rect.height}`. -/
structure VSeg where
  x : ℚ
  y0 : ℚ
  y1 : ℚ
  height : ℚ
deriving DecidableEq

/-- A clustered horizontal grid line `{'y': y_key, 'x0': min, 'x1': max}`;
the `y` is the cluster key, an integer produced by `round`. -/
structure HLine where
  y : ℤ
  x0 : ℚ
  x1 : ℚ
deriving DecidableEq

/-- A clustered vertical grid line `{'x': x_key, 'y0': min, 'y1': max}`. -/
structure VLine where
  x : ℤ
  y0 : ℚ
  y1 : ℚ
deriving DecidableEq

/-- A cell bounding box `(cell_x0, cell_y0, cell_x1, cell_y1)`. -/
structure BBox where
  x0 : ℚ
  y0 : ℚ
  x1 : ℚ
  y1 : ℚ
deriving DecidableEq

/-- A grid cell as emitted by `detect_grid_from_rectangles`. -/
structure GridCell where
  cell_id : ℕ
  bbox : BBox
  row : ℕ
  col : ℕ
deriving DecidableEq

/-- The dictionary returned by `detect_grid_from_rectangles`. -/
structure GridData where
  all_grid_cells : List GridCell
  main_horizontal : List HLine
  main_vertical : List VLine
  footer_separator : Option HSeg
deriving DecidableEq

/-- Python's `round` on a rational: nearest integer, ties to even. The
fractional part `r = q - ⌊q⌋` is compared with `1/2` through the
equivalent integer comparison `2*num ≶ (2*⌊q⌋+1)*den` (the denominator is
positive), keeping the definition kernel-computable. -/
def pyRound (q : ℚ) : ℤ :=
  let f : ℤ := ⌊q⌋
  if 2 * q.num < (2 * f + 1) * (q.den : ℤ) then f
  else if (2 * f + 1) * (q.den : ℤ) < 2 * q.num then f + 1
  else if f % 2 = 0 then f else f + 1

/-- The horizontal-segment collection loop of `detect_grid_from_rectangles`:
rectangles with `area == 0`, `width > 0` and `height == 0`. -/
def horizSegs (rs : List PyRect) : List HSeg :=
  rs.filterMap fun r =>
    if r.area = 0 ∧ 0 < r.width ∧ r.height = 0 then
      some ⟨r.y0, r.x0, r.x1, r.width⟩
    else none

/-- The vertical-segment collection: the `elif` branch, rectangles with
`area == 0`, not horizontal, `width == 0` and `height > 0`. -/
def vertSegs (rs : List PyRect) : List VSeg :=
  rs.filterMap fun r =>
    if r.area = 0 ∧ ¬(0 < r.width ∧ r.height = 0) ∧ r.width = 0 ∧ 0 < r.height then
      some ⟨r.x0, r.y0, r.y1, r.height⟩
    else none

/-- Ordering of horizontal segments by `y` (the `sort(key=lambda l: l['y'])`). -/
def hSegLE (a b : HSeg) : Prop := a.y ≤ b.y

instance : DecidableRel hSegLE := fun a b => inferInstanceAs (Decidable (a.y ≤ b.y))

instance : IsTotal HSeg hSegLE := ⟨fun a b => le_total a.y b.y⟩

instance : IsTrans HSeg hSegLE := ⟨fun _ _ _ h1 h2 => le_trans h1 h2⟩

/-- The horizontal segments sorted by `y` (Python's stable sort; Lean's
insertion sort is likewise stable). -/
def sortedHSegs (rs : List PyRect) : List HSeg :=
  (horizSegs rs).insertionSort hSegLE

/-- The footer-separator pop: if the list is non-empty and its last
(`highest-y`) element has width > 500, remove and return it. -/
def popFooter (l : List HSeg) : Option HSeg × List HSeg :=
  match l.getLast? with
  | some s => if 500 < s.width then (some s, l.dropLast) else (none, l)
  | none => (none, l)

/-- `defaultdict(list)` accumulation: append `v` to the cluster keyed `k`,
creating the key at the end in insertion order when absent. -/
def addCluster {α : Type} (k : ℤ) (v : α) : List (ℤ × List α) → List (ℤ × List α)
  | [] => [(k, [v])]
  | (k', vs) :: rest =>
    if k' = k then (k', vs ++ [v]) :: rest else (k', vs) :: addCluster k v rest

/-- The horizontal clustering loop: segments with `100 < width < 200`,
keyed by `round(y)`. -/
def hClusters (l : List HSeg) : List (ℤ × List HSeg) :=
  l.foldl
    (fun cs s =>
      if 100 < s.width ∧ s.width < 200 then addCluster (pyRound s.y) s cs else cs)
    []

/-- The vertical clustering loop: segments with `height > 50`, keyed by
`round(x)`. -/
def vClusters (l : List VSeg) : List (ℤ × List VSeg) :=
  l.foldl
    (fun cs s => if 50 < s.height then addCluster (pyRound s.x) s cs else cs)
    []

/-- Python's `min` over a non-empty collection, folded from a first value. -/
def minList (q : ℚ) (l : List ℚ) : ℚ := l.foldl min q

/-- Python's `max` over a non-empty collection, folded from a first value. -/
def maxList (q : ℚ) (l : List ℚ) : ℚ := l.foldl max q

/-- One merged horizontal grid line per cluster with at least one member:
`{'y': y_key, 'x0': min(x0), 'x1': max(x1)}`. -/
def hLineOfCluster (k : ℤ) (ss : List HSeg) : Option HLine :=
  match ss with
  | [] => none
  | s :: tail => some ⟨k, minList s.x0 (tail.map (·.x0)), maxList s.x1 (tail.map (·.x1))⟩

/-- One merged vertical grid line per cluster. -/
def vLineOfCluster (k : ℤ) (ss : List VSeg) : Option VLine :=
  match ss with
  | [] => none
  | s :: tail => some ⟨k, minList s.y0 (tail.map (·.y0)), maxList s.y1 (tail.map (·.y1))⟩

/-- Ordering of merged horizontal grid lines by `y`. -/
def hLineLE (a b : HLine) : Prop := a.y ≤ b.y

instance : DecidableRel hLineLE := fun a b => inferInstanceAs (Decidable (a.y ≤ b.y))

instance : IsTotal HLine hLineLE := ⟨fun a b => le_total a.y b.y⟩

instance : IsTrans HLine hLineLE := ⟨fun _ _ _ h1 h2 => le_trans h1 h2⟩

/-- Ordering of merged vertical grid lines by `x`. -/
def vLineLE (a b : VLine) : Prop := a.x ≤ b.x

instance : DecidableRel vLineLE := fun a b => inferInstanceAs (Decidable (a.x ≤ b.x))

instance : IsTotal VLine vLineLE := ⟨fun a b => le_total a.x b.x⟩

instance : IsTrans VLine vLineLE := ⟨fun _ _ _ h1 h2 => le_trans h1 h2⟩

/-- `main_horizontal`: one line per cluster, then `sort(key=lambda l: l['y'])`. -/
def mainHorizontal (cl : List (ℤ × List HSeg)) : List HLine :=
  (cl.filterMap fun p => hLineOfCluster p.1 p.2).insertionSort hLineLE

/-- `main_vertical`: one line per cluster, then `sort(key=lambda l: l['x'])`. -/
def mainVertical (cl : List (ℤ × List VSeg)) : List VLine :=
  (cl.filterMap fun p => vLineOfCluster p.1 p.2).insertionSort vLineLE

/-- Placeholder line for out-of-range index access (never reached at the
indices the cell loop uses). -/
def dH : HLine := ⟨0, 0, 0⟩

/-- Placeholder vertical line for out-of-range index access. -/
def dV : VLine := ⟨0, 0, 0⟩

/-- The grid-cell construction loop: with at least 2 horizontal and 2
vertical grid lines, `rows = H-1` by `cols = V-1` cells, cell `(row, col)`
bounded by lines `row, row+1` and `col, col+1`, with
`cell_id = row*cols + col` and 1-based display `row`/`col`. -/
def makeCells (H : List HLine) (V : List VLine) : List GridCell :=
  if 2 ≤ H.length ∧ 2 ≤ V.length then
    let rows := H.length - 1
    let cols := V.length - 1
    (List.range rows).flatMap fun row =>
      (List.range cols).map fun col =>
        { cell_id := row * cols + col
          bbox := ⟨((V.getD col dV).x : ℚ), ((H.getD row dH).y : ℚ),
                   ((V.getD (col + 1) dV).x : ℚ), ((H.getD (row + 1) dH).y : ℚ)⟩
          row := row + 1
          col := col + 1 }
  else []

/-- Stage: the horizontal segments that remain after the footer pop. -/
def gridHSegs (rs : List PyRect) : List HSeg := (popFooter (sortedHSegs rs)).2

/-- Stage: the recorded footer separator. -/
def footerOf (rs : List PyRect) : Option HSeg := (popFooter (sortedHSegs rs)).1

/-- Stage: the sorted merged horizontal grid lines of a page. -/
def detH (rs : List PyRect) : List HLine := mainHorizontal (hClusters (gridHSegs rs))

/-- Stage: the sorted merged vertical grid lines of a page. -/
def detV (rs : List PyRect) : List VLine := mainVertical (vClusters (vertSegs rs))

/-- `detect_grid_from_rectangles`: the full grid reconstruction. -/
def detect_grid_from_rectangles (rs : List PyRect) : GridData :=
  { all_grid_cells := makeCells (detH rs) (detV rs)
    main_horizontal := detH rs
    main_vertical := detV rs
    footer_separator := footerOf rs }

/-- A text span as built in `extract_complete_page_data`: text, bounding
box, and the derived center point. -/
structure Span where
  text : String
  x0 : ℚ
  y0 : ℚ
  x1 : ℚ
  y1 : ℚ
  center_x : ℚ
  center_y : ℚ
deriving DecidableEq

/-- The result dictionary of `classify_text_spans`. The `defaultdict(list)`
of span assignments is embedded as the flat, insertion-ordered list of
`(cell_id, span)` pairs; `cellSpans` recovers the dict entry of one key. -/
structure ClassifyResult where
  header_spans : List Span
  footer_spans : List Span
  unassigned_spans : List Span
  card_assignments : List (ℕ × Span)
deriving DecidableEq

/-- The lenient containment test of the classification loop: the cell's
bounding box expanded by 2 on every side contains the span's center,
bounds inclusive. -/
def inCellTol (c : GridCell) (s : Span) : Bool :=
  decide (c.bbox.x0 - 2 ≤ s.center_x) && decide (s.center_x ≤ c.bbox.x1 + 2) &&
  decide (c.bbox.y0 - 2 ≤ s.center_y) && decide (s.center_y ≤ c.bbox.y1 + 2)

/-- The inner cell loop: the first cell of the enumeration whose expanded
box contains the span's center (`break` on first hit). -/
def spanFind (cells : List GridCell) (s : Span) : Option GridCell :=
  cells.find? fun c => inCellTol c s

/-- One iteration of the span loop of `classify_text_spans`. -/
def classifyStep (cells : List GridCell) (ft lb : ℚ) (acc : ClassifyResult)
    (s : Span) : ClassifyResult :=
  match spanFind cells s with
  | some c => { acc with card_assignments := acc.card_assignments ++ [(c.cell_id, s)] }
  | none =>
    if s.y1 < ft then { acc with header_spans := acc.header_spans ++ [s] }
    else if lb < s.y0 then { acc with footer_spans := acc.footer_spans ++ [s] }
    else { acc with unassigned_spans := acc.unassigned_spans ++ [s] }

/-- `classify_text_spans`: with no grid cells all spans become header spans;
otherwise each span goes to the first containing cell, or to
header/footer/unassigned by its position against the grid's vertical
extent (`first_card_top` from the first cell, `last_card_bottom` from the
last). -/
def classify_text_spans (spans : List Span) (cells : List GridCell) : ClassifyResult :=
  match cells with
  | [] => ⟨spans, [], [], []⟩
  | c0 :: rest =>
    let ft := c0.bbox.y0
    let lb := ((c0 :: rest).getLast (List.cons_ne_nil c0 rest)).bbox.y1
    spans.foldl (classifyStep (c0 :: rest) ft lb) ⟨[], [], [], []⟩

/-- The `card_assignments` dict entry of one cell id, in insertion order
(what `card_assignments.get(cell_id, [])` returns). -/
def cellSpans (res : ClassifyResult) (id : ℕ) : List Span :=
  (res.card_assignments.filter fun p => decide (p.1 = id)).map Prod.snd

/-- A voter card record as emitted by `create_final_cards`. -/
structure Card where
  card_number : ℕ
  bbox : BBox
  row : ℕ
  col : ℕ
  raw_content : List String
  epic_number : Option String
  part_number : Option String
  text_spans_count : ℕ
deriving DecidableEq

/-- The card-sorting order `key=lambda x: (x['y0'], x['x0'])`: lexicographic
on `(y0, x0)`. -/
def spanLE (a b : Span) : Prop := a.y0 < b.y0 ∨ (a.y0 = b.y0 ∧ a.x0 ≤ b.x0)

instance : DecidableRel spanLE := fun a b =>
  inferInstanceAs (Decidable (a.y0 < b.y0 ∨ (a.y0 = b.y0 ∧ a.x0 ≤ b.x0)))

/-- `sorted(spans, key=lambda x: (x['y0'], x['x0']))` (stable). -/
def sortSpans (l : List Span) : List Span := l.insertionSort spanLE

/-- `' '.join(raw_texts)`. -/
def joinSpace (l : List String) : String := String.intercalate " " l

/-- The character class `[A-Z]`: a literal ASCII range in the pattern. -/
def isUpperAZ (c : Char) : Bool := decide ('A' ≤ c) && decide (c ≤ 'Z')

/-! The identifier pattern is compiled with no flags, so its `\d` denotes
the interpreter's full Unicode decimal-digit class (category Nd — the
ASCII digits, the Devanagari digits, and so on) and its `\s` the
interpreter's Unicode whitespace class; both tables vary with the Unicode
version the interpreter bundles. The matcher below therefore takes the two
classes as parameters — `isD` for `\d`, `isS` for `\s` — and the theorems
assume of them only facts that hold in every Unicode version: no decimal
digit is whitespace, and the slash is not a decimal digit. `[A-Z]` is a
literal ASCII range and stays concrete. -/

/-- The ASCII decimal digits: the ASCII fragment of the class `\d`, used
to instantiate the matcher on concrete all-ASCII inputs. -/
def asciiDigit (c : Char) : Bool := decide ('0' ≤ c) && decide (c ≤ '9')

/-- The six ASCII whitespace characters: the corresponding fragment of the
class `\s`. -/
def asciiSpace (c : Char) : Bool :=
  decide (c = ' ') || decide (c = '\t') || decide (c = '\n') || decide (c = '\r') ||
  decide (c = '\x0b') || decide (c = '\x0c')

/-- Matching `(\d+/\d+/\d+)` at the head of the text, digit runs maximal
(the greedy semantics of `re`), `isD` the digit class `\d`: returns the
captured group and the rest. -/
def matchGroup2 (isD : Char → Bool) (l : List Char) : Option (List Char × List Char) :=
  let s1 := l.span isD
  if s1.1.isEmpty then none
  else
    match s1.2 with
    | [] => none
    | c1 :: r2 =>
      if c1 = '/' then
        let s2 := r2.span isD
        if s2.1.isEmpty then none
        else
          match s2.2 with
          | [] => none
          | c2 :: r4 =>
            if c2 = '/' then
              let s3 := r4.span isD
              if s3.1.isEmpty then none
              else some (s1.1 ++ '/' :: s2.1 ++ '/' :: s3.1, s3.2)
            else none
      else none

/-- Matching the full pattern `([A-Z]{3}\d{7})\s+(\d+/\d+/\d+)` anchored at
the head of the text, `isD` and `isS` the classes `\d` and `\s`: returns
the two captured groups. -/
def matchAt (isD isS : Char → Bool) (l : List Char) : Option (List Char × List Char) :=
  let e := l.take 10
  if e.length = 10 ∧ (e.take 3).all isUpperAZ = true ∧ (e.drop 3).all isD = true then
    let sp := (l.drop 10).span isS
    if sp.1.isEmpty then none
    else (matchGroup2 isD sp.2).map fun pr => (e, pr.1)
  else none

/-- `re.search`: the leftmost position at which the pattern matches. -/
def searchEpic (isD isS : Char → Bool) : List Char → Option (List Char × List Char)
  | [] => none
  | c :: rest =>
    match matchAt isD isS (c :: rest) with
    | some r => some r
    | none => searchEpic isD isS rest

/-- `extract_epic_part`: the `(epic, part, None)` triple, both captured
groups of the first match of `([A-Z]{3}\d{7})\s+(\d+/\d+/\d+)`, or all
`None` when the pattern does not occur. -/
def extract_epic_part (isD isS : Char → Bool) (text : String) :
    Option String × Option String × Option String :=
  match searchEpic isD isS text.data with
  | some (e, p) => (some (String.mk e), some (String.mk p), none)
  | none => (none, none, none)

/-- The card built for one cell holding at least 3 spans, with `n` the
1-based card number (`len(final_cards) + 1` at append time). -/
def mkCard (isD isS : Char → Bool) (A : ℕ → List Span) (c : GridCell) (n : ℕ) : Card :=
  let raw_texts := (sortSpans (A c.cell_id)).map Span.text
  let ep := extract_epic_part isD isS (joinSpace raw_texts)
  { card_number := n
    bbox := c.bbox
    row := c.row
    col := c.col
    raw_content := raw_texts
    epic_number := ep.1
    part_number := ep.2.1
    text_spans_count := (A c.cell_id).length }

/-- The cell loop of `create_final_cards`, carrying the number of cards
appended so far. -/
def buildCards (isD isS : Char → Bool) (A : ℕ → List Span) : ℕ → List GridCell → List Card
  | _, [] => []
  | n, c :: rest =>
    if 3 ≤ (A c.cell_id).length then
      mkCard isD isS A c (n + 1) :: buildCards isD isS A (n + 1) rest
    else buildCards isD isS A n rest

/-- `create_final_cards`: one card per cell with at least 3 assigned spans,
in cell-list order, densely numbered from 1. `A` is the assignment dict
read through `.get(cell_id, [])`. -/
def create_final_cards (isD isS : Char → Bool) (A : ℕ → List Span)
    (cells : List GridCell) : List Card :=
  buildCards isD isS A 0 cells

/-- The per-page record returned by `extract_complete_page_data` as consumed
by the batch loop: header/footer/unassigned texts, cards, and
`total_cards = len(cards)`. Extraction itself opens the PDF through the
rendering library; the batch loop sees it as a fallible call, embedded as
an `Option`-valued function (`none` = an exception raised for that page). -/
structure PageData where
  header : List String
  footer : List String
  cards : List Card
  unassigned : List String
  total_cards : ℕ
deriving DecidableEq

/-- The running `summary` dict of `process_entire_pdf`. -/
structure Summary where
  total_pages_processed : ℕ
  total_cards_found : ℕ
  pages_with_cards : ℕ
  pages_without_cards : ℕ
deriving DecidableEq

/-- The `master_data` dict: per-page maps (insertion-ordered, keyed by page
number) plus the summary. -/
structure MasterData where
  headers : List (ℕ × List String)
  footers : List (ℕ × List String)
  cards : List (ℕ × List Card)
  unassigned : List (ℕ × List String)
  summary : Summary
deriving DecidableEq

/-- Python dict assignment `m[k] = v`: overwrite in place, or append the new
key at the end in insertion order. -/
def dictSet {κ α : Type} [DecidableEq κ] : List (κ × α) → κ → α → List (κ × α)
  | [], k, v => [(k, v)]
  | (k', v') :: rest, k, v =>
    if k' = k then (k, v) :: rest else (k', v') :: dictSet rest k v

/-- The empty `master_data` accumulator. -/
def initMaster : MasterData := ⟨[], [], [], [], ⟨0, 0, 0, 0⟩⟩

/-- The success branch of the batch loop: record the page's data under its
page number and update all four summary counters. -/
def recordPage (m : MasterData) (p : ℕ) (pd : PageData) : MasterData :=
  { headers := dictSet m.headers p pd.header
    footers := dictSet m.footers p pd.footer
    cards := dictSet m.cards p pd.cards
    unassigned := dictSet m.unassigned p pd.unassigned
    summary :=
      { total_pages_processed := m.summary.total_pages_processed + 1
        total_cards_found := m.summary.total_cards_found + pd.total_cards
        pages_with_cards :=
          if 0 < pd.total_cards then m.summary.pages_with_cards + 1
          else m.summary.pages_with_cards
        pages_without_cards :=
          if 0 < pd.total_cards then m.summary.pages_without_cards
          else m.summary.pages_without_cards + 1 } }

/-- The `except` branch: record the page with four empty lists and leave the
summary untouched. -/
def recordFailure (m : MasterData) (p : ℕ) : MasterData :=
  { m with
    headers := dictSet m.headers p []
    footers := dictSet m.footers p []
    cards := dictSet m.cards p []
    unassigned := dictSet m.unassigned p [] }

/-- One iteration of the batch loop of `process_entire_pdf`. -/
def processStep (extract : ℕ → Option PageData) (m : MasterData) (p : ℕ) : MasterData :=
  match extract p with
  | some pd => recordPage m p pd
  | none => recordFailure m p

/-- The batch loop over an arbitrary list of page numbers. -/
def processPages (extract : ℕ → Option PageData) (pages : List ℕ) : MasterData :=
  pages.foldl (processStep extract) initMaster

/-- `process_entire_pdf`: the batch loop over the inclusive page range
`range(start_page, end_page + 1)`. -/
def process_entire_pdf (extract : ℕ → Option PageData) (start_page end_page : ℕ) :
    MasterData :=
  processPages extract (List.range' start_page (end_page + 1 - start_page))

/-- `page_assignments.get(str(page_num), "UNASSIGNED")` of `scracth2.py`. -/
def lookupD (pa : List (ℕ × String)) (k : ℕ) (d : String) : String :=
  match pa.lookup k with
  | some v => v
  | none => d

/-- Dict read with a default, `d.get(k, dflt)`. -/
def getDict {κ α : Type} [DecidableEq κ] [BEq κ] (m : List (κ × α)) (k : κ) (dflt : α) : α :=
  match m.lookup k with
  | some v => v
  | none => dflt

/-- The first pass of `create_collective_files_from_voter_json`: group each
page's card list under its assigned collective
(`collective_cards[collective][page_num] = page_cards`), skipping pages
whose assignment resolves to `"UNASSIGNED"` (including pages with no
mapping entry, through the `.get` default). -/
def collectivePass {α : Type} (cards_data : List (ℕ × List α))
    (pa : List (ℕ × String)) : List (String × List (ℕ × List α)) :=
  cards_data.foldl
    (fun acc pc =>
      let coll := lookupD pa pc.1 "UNASSIGNED"
      if coll ≠ "UNASSIGNED" then
        dictSet acc coll (dictSet (getDict acc coll []) pc.1 pc.2)
      else acc)
    []

/-- The second pass: pages whose mapping entry is literally `"UNASSIGNED"`
(`page_assignments.get(str(page_num)) == "UNASSIGNED"`, with no default
this time). -/
def unassignedPages {α : Type} (cards_data : List (ℕ × List α))
    (pa : List (ℕ × String)) : List (ℕ × List α) :=
  cards_data.filter fun pc => decide (pa.lookup pc.1 = some "UNASSIGNED")

/-! ### Characterization of the classification loop -/

/-- Destination predicate: the span matched no cell and sits above the grid. -/
def isHeaderSpan (cells : List GridCell) (ft : ℚ) (s : Span) : Bool :=
  (spanFind cells s).isNone && decide (s.y1 < ft)

/-- Destination predicate: matched no cell, not header, below the grid. -/
def isFooterSpan (cells : List GridCell) (ft lb : ℚ) (s : Span) : Bool :=
  (spanFind cells s).isNone && !decide (s.y1 < ft) && decide (lb < s.y0)

/-- Destination predicate: matched no cell, neither header nor footer. -/
def isUnassignedSpan (cells : List GridCell) (ft lb : ℚ) (s : Span) : Bool :=
  (spanFind cells s).isNone && !decide (s.y1 < ft) && !decide (lb < s.y0)

/-- The assignment pair a span contributes when some cell claims it. -/
def toAssign (cells : List GridCell) (s : Span) : Option (ℕ × Span) :=
  (spanFind cells s).map fun c => (c.cell_id, s)

theorem classify_foldl (cells : List GridCell) (ft lb : ℚ) :
    ∀ (spans : List Span) (acc : ClassifyResult),
      spans.foldl (classifyStep cells ft lb) acc =
        ⟨acc.header_spans ++ spans.filter (isHeaderSpan cells ft),
         acc.footer_spans ++ spans.filter (isFooterSpan cells ft lb),
         acc.unassigned_spans ++ spans.filter (isUnassignedSpan cells ft lb),
         acc.card_assignments ++ spans.filterMap (toAssign cells)⟩ := by
  intro spans
  induction spans with
  | nil => intro acc; cases acc; simp
  | cons s tl ih =>
    intro acc
    rw [List.foldl_cons, ih]
    cases h : spanFind cells s with
    | some c =>
      simp [classifyStep, h, isHeaderSpan, isFooterSpan, isUnassignedSpan, toAssign,
        List.filter_cons, List.filterMap_cons]
    | none =>
      by_cases h1 : s.y1 < ft
      · simp [classifyStep, h, h1, isHeaderSpan, isFooterSpan, isUnassignedSpan, toAssign,
          List.filter_cons, List.filterMap_cons]
      · by_cases h2 : lb < s.y0
        · simp [classifyStep, h, h1, h2, isHeaderSpan, isFooterSpan, isUnassignedSpan,
            toAssign, List.filter_cons, List.filterMap_cons]
        · simp [classifyStep, h, h1, h2, isHeaderSpan, isFooterSpan, isUnassignedSpan,
            toAssign, List.filter_cons, List.filterMap_cons]

/-- The grid's top boundary as the classification loop reads it. -/
def firstCardTop (c0 : GridCell) : ℚ := c0.bbox.y0

/-- The grid's bottom boundary as the classification loop reads it. -/
def lastCardBottom (c0 : GridCell) (rest : List GridCell) : ℚ :=
  ((c0 :: rest).getLast (List.cons_ne_nil c0 rest)).bbox.y1

theorem classify_eq (spans : List Span) (c0 : GridCell) (rest : List GridCell) :
    classify_text_spans spans (c0 :: rest) =
      ⟨spans.filter (isHeaderSpan (c0 :: rest) (firstCardTop c0)),
       spans.filter (isFooterSpan (c0 :: rest) (firstCardTop c0) (lastCardBottom c0 rest)),
       spans.filter (isUnassignedSpan (c0 :: rest) (firstCardTop c0) (lastCardBottom c0 rest)),
       spans.filterMap (toAssign (c0 :: rest))⟩ := by
  show spans.foldl _ _ = _
  rw [classify_foldl]
  simp [firstCardTop, lastCardBottom]

theorem bucket_multiset (cells : List GridCell) (ft lb : ℚ) :
    ∀ spans : List Span,
      (↑(spans.filter (isHeaderSpan cells ft)) + ↑(spans.filter (isFooterSpan cells ft lb)) +
        ↑(spans.filter (isUnassignedSpan cells ft lb)) +
        ↑((spans.filterMap (toAssign cells)).map Prod.snd) : Multiset Span) = ↑spans := by
  intro spans
  induction spans with
  | nil => simp
  | cons s tl ih =>
    cases h : spanFind cells s with
    | some c =>
      have hH : isHeaderSpan cells ft s = false := by simp [isHeaderSpan, h]
      have hF : isFooterSpan cells ft lb s = false := by simp [isFooterSpan, h]
      have hU : isUnassignedSpan cells ft lb s = false := by simp [isUnassignedSpan, h]
      have hA : toAssign cells s = some (c.cell_id, s) := by simp [toAssign, h]
      simp only [List.filter_cons, List.filterMap_cons, hH, hF, hU, hA, Bool.false_eq_true,
        if_false, List.map_cons, ← Multiset.cons_coe, Multiset.cons_add, Multiset.add_cons, ih,
        Multiset.cons_inj_right]
    | none =>
      have hA : toAssign cells s = none := by simp [toAssign, h]
      by_cases h1 : s.y1 < ft
      · have hH : isHeaderSpan cells ft s = true := by simp [isHeaderSpan, h, h1]
        have hF : isFooterSpan cells ft lb s = false := by simp [isFooterSpan, h1]
        have hU : isUnassignedSpan cells ft lb s = false := by simp [isUnassignedSpan, h1]
        simp only [List.filter_cons, List.filterMap_cons, hH, hF, hU, hA, Bool.false_eq_true,
          if_false, if_true, ← Multiset.cons_coe, Multiset.cons_add, Multiset.add_cons, ih,
          Multiset.cons_inj_right]
      · by_cases h2 : lb < s.y0
        · have hH : isHeaderSpan cells ft s = false := by simp [isHeaderSpan, h1]
          have hF : isFooterSpan cells ft lb s = true := by simp [isFooterSpan, h, h1, h2]
          have hU : isUnassignedSpan cells ft lb s = false := by simp [isUnassignedSpan, h2]
          simp only [List.filter_cons, List.filterMap_cons, hH, hF, hU, hA, Bool.false_eq_true,
            if_false, if_true, ← Multiset.cons_coe, Multiset.cons_add, Multiset.add_cons, ih,
            Multiset.cons_inj_right]
        · have hH : isHeaderSpan cells ft s = false := by simp [isHeaderSpan, h1]
          have hF : isFooterSpan cells ft lb s = false := by simp [isFooterSpan, h2]
          have hU : isUnassignedSpan cells ft lb s = true := by
            simp [isUnassignedSpan, h, h1, h2]
          simp only [List.filter_cons, List.filterMap_cons, hH, hF, hU, hA, Bool.false_eq_true,
            if_false, if_true, ← Multiset.cons_coe, Multiset.cons_add, Multiset.add_cons, ih,
            Multiset.cons_inj_right]

/-- C2: Span exclusivity — for every classification run (any list of text
spans and any grid-cell list), the four output buckets (header, footer,
unassigned, and the per-cell assignment pairs) together form a
permutation of the input span list: every input span occurrence lands in
exactly one bucket, never zero and never more than one. -/
theorem span_exclusivity (spans : List Span) (cells : List GridCell) :
    ((classify_text_spans spans cells).header_spans ++
      (classify_text_spans spans cells).footer_spans ++
      (classify_text_spans spans cells).unassigned_spans ++
      ((classify_text_spans spans cells).card_assignments.map Prod.snd)).Perm spans := by
  cases cells with
  | nil => simp [classify_text_spans]
  | cons c0 rest =>
    rw [classify_eq]
    refine Multiset.coe_eq_coe.mp ?_
    have h4 := bucket_multiset (c0 :: rest) (firstCardTop c0) (lastCardBottom c0 rest) spans
    simpa only [← Multiset.coe_add, List.append_assoc, add_assoc] using h4

/-- C6: No-grid degenerate fallback — when grid reconstruction finds fewer
than 2 horizontal or fewer than 2 vertical grid lines, the cell list is
empty, and classification then puts every input span in the header bucket
with footer, unassigned and all per-cell assignments empty. -/
theorem no_grid_fallback (rs : List PyRect)
    (h : (detect_grid_from_rectangles rs).main_horizontal.length < 2 ∨
      (detect_grid_from_rectangles rs).main_vertical.length < 2) :
    (detect_grid_from_rectangles rs).all_grid_cells = [] ∧
    ∀ spans : List Span,
      classify_text_spans spans (detect_grid_from_rectangles rs).all_grid_cells =
        ⟨spans, [], [], []⟩ := by
  have hcells : (detect_grid_from_rectangles rs).all_grid_cells = [] := by
    show makeCells (detH rs) (detV rs) = []
    unfold makeCells
    rw [if_neg]
    rintro ⟨hH, hV⟩
    rcases h with h | h
    · exact absurd hH (not_le.mpr h)
    · exact absurd hV (not_le.mpr h)
  refine ⟨hcells, fun spans => ?_⟩
  rw [hcells]
  rfl

/-- Witness for C6 at the concrete input of a page with no drawing
primitives at all: zero grid lines, so every span becomes a header span. -/
theorem no_grid_fallback_witness :
    (detect_grid_from_rectangles []).all_grid_cells = [] ∧
    ∀ spans : List Span,
      classify_text_spans spans (detect_grid_from_rectangles []).all_grid_cells =
        ⟨spans, [], [], []⟩ :=
  no_grid_fallback [] (Or.inl (by decide))

/-- A concrete voter card used in the collective-partition evaluation. -/
def exCard : Card := ⟨1, ⟨0, 0, 10, 10⟩, 1, 1, ["x"], none, none, 3⟩

/-- C1 evaluated at the failing input: `cards_data` holds page 1 with one
card, and `page_assignments` has no entry for page 1. The first pass
(through its `.get` default) skips the page, and the second pass
(`.get` with no default, compared against the literal string) skips it
too, so the page lands in no collective bucket and not in the UNASSIGNED
bucket either — its cards are dropped, contradicting the claimed
partition completeness. -/
theorem collective_missing_mapping_dropped :
    collectivePass [((1 : ℕ), [exCard])] [] = [] ∧
    unassignedPages [((1 : ℕ), [exCard])] [] = [] := by
  exact ⟨rfl, rfl⟩

/-- The footer-selection counterexample page: a 600-wide horizontal line at
`y = 10` (the longest) and a 501-wide horizontal line at `y = 20`. -/
def footerRects : List PyRect :=
  [⟨0, 10, 600, 10, 600, 0, 0⟩, ⟨0, 20, 501, 20, 501, 0, 0⟩]

/-- Counterexample to C3 as stated: on `footerRects` the recorded footer
separator has width 501, while the page holds a horizontal line segment of
width 600 — the recorded separator is the highest-`y` horizontal segment,
not the longest one. -/
theorem footer_not_longest_counterexample :
    (detect_grid_from_rectangles footerRects).footer_separator.map HSeg.width =
      some 501 ∧
    (⟨(10 : ℚ), 0, 600, 600⟩ : HSeg) ∈ horizSegs footerRects ∧
    (501 : ℚ) < 600 := by
  refine ⟨by decide, by decide, by norm_num⟩

theorem sortedHSegs_sorted (rs : List PyRect) : (sortedHSegs rs).Sorted hSegLE :=
  List.sorted_insertionSort hSegLE (horizSegs rs)

/-- C3 (amended): the footer separator recorded by grid reconstruction is
the last element of the horizontal segments sorted by `y` — a segment of
maximal `y`, not necessarily the longest — recorded only when its width
exceeds 500; it is removed from the grid-line candidates before
clustering; at most one per page, optional. -/
theorem footer_separator_amended (rs : List PyRect) :
    (detect_grid_from_rectangles rs).footer_separator = footerOf rs ∧
    (detect_grid_from_rectangles rs).main_horizontal =
      mainHorizontal (hClusters (gridHSegs rs)) ∧
    (sortedHSegs rs = [] → footerOf rs = none ∧ gridHSegs rs = sortedHSegs rs) ∧
    ∀ l hs, sortedHSegs rs = hs ++ [l] →
      (500 < l.width →
        footerOf rs = some l ∧ gridHSegs rs = hs ∧
        ∀ h ∈ horizSegs rs, h.y ≤ l.y) ∧
      (l.width ≤ 500 → footerOf rs = none ∧ gridHSegs rs = sortedHSegs rs) := by
  refine ⟨rfl, rfl, ?_, ?_⟩
  · intro h0
    constructor
    · show (popFooter (sortedHSegs rs)).1 = none
      rw [h0]; rfl
    · show (popFooter (sortedHSegs rs)).2 = sortedHSegs rs
      rw [h0]; rfl
  · intro l hs heq
    have hlast : (sortedHSegs rs).getLast? = some l := by
      rw [heq]; exact List.getLast?_concat hs
    have hdrop : (sortedHSegs rs).dropLast = hs := by
      rw [heq]; exact List.dropLast_concat
    constructor
    · intro hw
      refine ⟨?_, ?_, ?_⟩
      · show (popFooter (sortedHSegs rs)).1 = some l
        simp [popFooter, hlast, hw]
      · show (popFooter (sortedHSegs rs)).2 = hs
        simp [popFooter, hlast, hw, hdrop]
      · intro h hmem
        have hsorted := sortedHSegs_sorted rs
        rw [heq] at hsorted
        have hmem2 : h ∈ hs ++ [l] := by
          rw [← heq]
          exact (List.mem_insertionSort hSegLE).mpr hmem
        rcases List.mem_append.mp hmem2 with hh | hh
        · have := (List.pairwise_append.mp hsorted).2.2 h hh l (List.mem_singleton_self l)
          exact this
        · rw [List.mem_singleton.mp hh]
    · intro hw
      constructor
      · show (popFooter (sortedHSegs rs)).1 = none
        simp [popFooter, hlast, not_lt.mpr hw]
      · show (popFooter (sortedHSegs rs)).2 = sortedHSegs rs
        simp [popFooter, hlast, not_lt.mpr hw]

/-! ### The batch loop: per-page recovery and the summary counters -/

theorem lookup_dictSet_self {α : Type} (m : List (ℕ × α)) (k : ℕ) (v : α) :
    (dictSet m k v).lookup k = some v := by
  induction m with
  | nil => simp [dictSet]
  | cons p rest ih =>
    obtain ⟨k', v'⟩ := p
    by_cases h : k' = k
    · subst h; simp [dictSet]
    · have hne : (k == k') = false := beq_eq_false_iff_ne.mpr (Ne.symm h)
      simp [dictSet, h, List.lookup, hne, ih]

theorem lookup_dictSet_ne {α : Type} (m : List (ℕ × α)) (k q : ℕ) (v : α)
    (h : q ≠ k) : (dictSet m k v).lookup q = m.lookup q := by
  have hqk : (q == k) = false := beq_eq_false_iff_ne.mpr h
  induction m with
  | nil => simp [dictSet, List.lookup, hqk]
  | cons p rest ih =>
    obtain ⟨k', v'⟩ := p
    by_cases h2 : k' = k
    · subst h2; simp [dictSet, List.lookup, hqk]
    · simp only [dictSet, if_neg h2, List.lookup]
      cases hqk2 : q == k'
      · simpa [hqk2] using ih
      · simp [hqk2]

theorem processStep_lookup_ne (extract : ℕ → Option PageData) (m : MasterData)
    (q p : ℕ) (h : q ≠ p) :
    (processStep extract m p).headers.lookup q = m.headers.lookup q ∧
    (processStep extract m p).footers.lookup q = m.footers.lookup q ∧
    (processStep extract m p).cards.lookup q = m.cards.lookup q ∧
    (processStep extract m p).unassigned.lookup q = m.unassigned.lookup q := by
  cases hx : extract p with
  | some pd =>
    exact ⟨by simp [processStep, hx, recordPage, lookup_dictSet_ne _ _ _ _ h],
      by simp [processStep, hx, recordPage, lookup_dictSet_ne _ _ _ _ h],
      by simp [processStep, hx, recordPage, lookup_dictSet_ne _ _ _ _ h],
      by simp [processStep, hx, recordPage, lookup_dictSet_ne _ _ _ _ h]⟩
  | none =>
    exact ⟨by simp [processStep, hx, recordFailure, lookup_dictSet_ne _ _ _ _ h],
      by simp [processStep, hx, recordFailure, lookup_dictSet_ne _ _ _ _ h],
      by simp [processStep, hx, recordFailure, lookup_dictSet_ne _ _ _ _ h],
      by simp [processStep, hx, recordFailure, lookup_dictSet_ne _ _ _ _ h]⟩

theorem foldl_lookup_not_mem (extract : ℕ → Option PageData) :
    ∀ (pages : List ℕ) (m : MasterData) (p : ℕ), p ∉ pages →
      (pages.foldl (processStep extract) m).headers.lookup p = m.headers.lookup p ∧
      (pages.foldl (processStep extract) m).footers.lookup p = m.footers.lookup p ∧
      (pages.foldl (processStep extract) m).cards.lookup p = m.cards.lookup p ∧
      (pages.foldl (processStep extract) m).unassigned.lookup p = m.unassigned.lookup p := by
  intro pages
  induction pages with
  | nil => intro m p _; exact ⟨rfl, rfl, rfl, rfl⟩
  | cons q tl ih =>
    intro m p hp
    rw [List.mem_cons, not_or] at hp
    obtain ⟨hpq, hptl⟩ := hp
    have h1 := ih (processStep extract m q) p hptl
    have h2 := processStep_lookup_ne extract m p q hpq
    rw [List.foldl_cons]
    exact ⟨h1.1.trans h2.1, h1.2.1.trans h2.2.1, h1.2.2.1.trans h2.2.2.1,
      h1.2.2.2.trans h2.2.2.2⟩

theorem foldl_lookup_mem (extract : ℕ → Option PageData) :
    ∀ (pages : List ℕ) (m : MasterData) (p : ℕ), p ∈ pages →
      (pages.foldl (processStep extract) m).headers.lookup p =
        some (match extract p with | some pd => pd.header | none => []) ∧
      (pages.foldl (processStep extract) m).footers.lookup p =
        some (match extract p with | some pd => pd.footer | none => []) ∧
      (pages.foldl (processStep extract) m).cards.lookup p =
        some (match extract p with | some pd => pd.cards | none => []) ∧
      (pages.foldl (processStep extract) m).unassigned.lookup p =
        some (match extract p with | some pd => pd.unassigned | none => []) := by
  intro pages
  induction pages with
  | nil => intro m p hp; exact absurd hp (List.not_mem_nil p)
  | cons q tl ih =>
    intro m p hp
    rw [List.foldl_cons]
    by_cases hptl : p ∈ tl
    · exact ih (processStep extract m q) p hptl
    · have hpq : p = q := by
        rcases List.mem_cons.mp hp with h | h
        · exact h
        · exact absurd h hptl
      subst hpq
      have hbase :
          (processStep extract m p).headers.lookup p =
            some (match extract p with | some pd => pd.header | none => []) ∧
          (processStep extract m p).footers.lookup p =
            some (match extract p with | some pd => pd.footer | none => []) ∧
          (processStep extract m p).cards.lookup p =
            some (match extract p with | some pd => pd.cards | none => []) ∧
          (processStep extract m p).unassigned.lookup p =
            some (match extract p with | some pd => pd.unassigned | none => []) := by
        cases hx : extract p with
        | some pd =>
          exact ⟨by simp [processStep, hx, recordPage, lookup_dictSet_self],
            by simp [processStep, hx, recordPage, lookup_dictSet_self],
            by simp [processStep, hx, recordPage, lookup_dictSet_self],
            by simp [processStep, hx, recordPage, lookup_dictSet_self]⟩
        | none =>
          exact ⟨by simp [processStep, hx, recordFailure, lookup_dictSet_self],
            by simp [processStep, hx, recordFailure, lookup_dictSet_self],
            by simp [processStep, hx, recordFailure, lookup_dictSet_self],
            by simp [processStep, hx, recordFailure, lookup_dictSet_self]⟩
      have hkeep := foldl_lookup_not_mem extract tl (processStep extract m p) p hptl
      exact ⟨hkeep.1.trans hbase.1, hkeep.2.1.trans hbase.2.1,
        hkeep.2.2.1.trans hbase.2.2.1, hkeep.2.2.2.trans hbase.2.2.2⟩

theorem mem_pageRange (s e p : ℕ) :
    p ∈ List.range' s (e + 1 - s) ↔ s ≤ p ∧ p ≤ e := by
  rw [List.mem_range']
  constructor
  · rintro ⟨i, hi, rfl⟩; omega
  · rintro ⟨h1, h2⟩; exact ⟨p - s, by omega, by omega⟩

/-- C9: Per-page failure recovery — for every page of the processed range,
a page whose extraction raises (embedded: `extract p = none`) is recorded
in the master document with empty headers, footers, cards and unassigned
lists; and every other page of the range is recorded with its own
extraction output regardless of failures elsewhere, so a failure never
propagates out of the batch loop. -/
theorem page_failure_recovery (extract : ℕ → Option PageData) (s e p : ℕ)
    (h1 : s ≤ p) (h2 : p ≤ e) :
    (extract p = none →
      (process_entire_pdf extract s e).headers.lookup p = some [] ∧
      (process_entire_pdf extract s e).footers.lookup p = some [] ∧
      (process_entire_pdf extract s e).cards.lookup p = some [] ∧
      (process_entire_pdf extract s e).unassigned.lookup p = some []) ∧
    ∀ pd : PageData, extract p = some pd →
      (process_entire_pdf extract s e).headers.lookup p = some pd.header ∧
      (process_entire_pdf extract s e).footers.lookup p = some pd.footer ∧
      (process_entire_pdf extract s e).cards.lookup p = some pd.cards ∧
      (process_entire_pdf extract s e).unassigned.lookup p = some pd.unassigned := by
  have hmem : p ∈ List.range' s (e + 1 - s) := (mem_pageRange s e p).mpr ⟨h1, h2⟩
  have h := foldl_lookup_mem extract (List.range' s (e + 1 - s)) initMaster p hmem
  constructor
  · intro hx
    rw [hx] at h
    exact h
  · intro pd hx
    rw [hx] at h
    exact h

/-- The concrete extraction used in the C9 witness: page 2 fails, pages 1
and 3 succeed. -/
def wExtract : ℕ → Option PageData :=
  fun p => if p = 2 then none else some ⟨["h"], ["f"], [], ["u"], 0⟩

/-- Witness for C9 at a concrete three-page batch whose middle page fails:
page 2 is recorded with four empty lists and the loop still records the
other pages. -/
theorem page_failure_recovery_witness :
    (wExtract 2 = none →
      (process_entire_pdf wExtract 1 3).headers.lookup 2 = some [] ∧
      (process_entire_pdf wExtract 1 3).footers.lookup 2 = some [] ∧
      (process_entire_pdf wExtract 1 3).cards.lookup 2 = some [] ∧
      (process_entire_pdf wExtract 1 3).unassigned.lookup 2 = some []) ∧
    ∀ pd : PageData, wExtract 2 = some pd →
      (process_entire_pdf wExtract 1 3).headers.lookup 2 = some pd.header ∧
      (process_entire_pdf wExtract 1 3).footers.lookup 2 = some pd.footer ∧
      (process_entire_pdf wExtract 1 3).cards.lookup 2 = some pd.cards ∧
      (process_entire_pdf wExtract 1 3).unassigned.lookup 2 = some pd.unassigned :=
  page_failure_recovery wExtract 1 3 2 (by decide) (by decide)

theorem processPages_summary (extract : ℕ → Option PageData) :
    ∀ (pages : List ℕ) (m : MasterData),
      (pages.foldl (processStep extract) m).summary.total_pages_processed =
        m.summary.total_pages_processed + pages.countP (fun p => (extract p).isSome) ∧
      (pages.foldl (processStep extract) m).summary.pages_with_cards =
        m.summary.pages_with_cards +
          pages.countP (fun p =>
            ((extract p).map fun pd => decide (0 < pd.total_cards)).getD false) ∧
      (pages.foldl (processStep extract) m).summary.pages_without_cards =
        m.summary.pages_without_cards +
          pages.countP (fun p =>
            ((extract p).map fun pd => !decide (0 < pd.total_cards)).getD false) ∧
      (pages.foldl (processStep extract) m).summary.total_cards_found =
        m.summary.total_cards_found +
          (pages.map fun p => ((extract p).map PageData.total_cards).getD 0).sum := by
  intro pages
  induction pages with
  | nil => intro m; simp
  | cons p tl ih =>
    intro m
    rw [List.foldl_cons]
    cases hx : extract p with
    | some pd =>
      have hstep : processStep extract m p = recordPage m p pd := by simp [processStep, hx]
      rw [hstep]
      obtain ⟨h1, h2, h3, h4⟩ := ih (recordPage m p pd)
      refine ⟨?_, ?_, ?_, ?_⟩
      · rw [h1]; simp [recordPage, List.countP_cons, hx]; omega
      · rw [h2]
        by_cases hc : 0 < pd.total_cards <;>
          (simp [recordPage, List.countP_cons, hx, hc]; try omega)
      · rw [h3]
        by_cases hc : 0 < pd.total_cards <;>
          (simp [recordPage, List.countP_cons, hx, hc]; try omega)
      · rw [h4]; simp [recordPage, hx]; omega
    | none =>
      have hstep : processStep extract m p = recordFailure m p := by simp [processStep, hx]
      rw [hstep]
      obtain ⟨h1, h2, h3, h4⟩ := ih (recordFailure m p)
      refine ⟨?_, ?_, ?_, ?_⟩
      · rw [h1]; simp [recordFailure, List.countP_cons, hx]
      · rw [h2]; simp [recordFailure, List.countP_cons, hx]
      · rw [h3]; simp [recordFailure, List.countP_cons, hx]
      · rw [h4]; simp [recordFailure, hx]

theorem countP_isSome_split (extract : ℕ → Option PageData) (pages : List ℕ) :
    pages.countP (fun p => (extract p).isSome) =
      pages.countP (fun p =>
        ((extract p).map fun pd => decide (0 < pd.total_cards)).getD false) +
      pages.countP (fun p =>
        ((extract p).map fun pd => !decide (0 < pd.total_cards)).getD false) := by
  induction pages with
  | nil => rfl
  | cons p tl ih =>
    simp only [List.countP_cons]
    cases hx : extract p with
    | some pd =>
      by_cases hc : 0 < pd.total_cards <;> simp [hx, hc] <;> omega
    | none => simp [hx]; omega

/-- C10: Implicit summary-counter invariant — quantified over an arbitrary
page list, hence over every prefix of the batch loop, i.e. the state
after every iteration of `process_entire_pdf`: `total_pages_processed`
equals `pages_with_cards + pages_without_cards`; a failed page
contributes to none of the four summary counters (each counter counts or
sums only over pages whose extraction succeeded); and a failed page still
appears as a key with empty lists in all four per-page maps. -/
theorem summary_counter_invariant (extract : ℕ → Option PageData) (pages : List ℕ) :
    (processPages extract pages).summary.total_pages_processed =
      (processPages extract pages).summary.pages_with_cards +
      (processPages extract pages).summary.pages_without_cards ∧
    (processPages extract pages).summary.total_pages_processed =
      pages.countP (fun p => (extract p).isSome) ∧
    (processPages extract pages).summary.pages_with_cards =
      pages.countP (fun p =>
        ((extract p).map fun pd => decide (0 < pd.total_cards)).getD false) ∧
    (processPages extract pages).summary.pages_without_cards =
      pages.countP (fun p =>
        ((extract p).map fun pd => !decide (0 < pd.total_cards)).getD false) ∧
    (processPages extract pages).summary.total_cards_found =
      (pages.map fun p => ((extract p).map PageData.total_cards).getD 0).sum ∧
    ∀ p ∈ pages, extract p = none →
      (processPages extract pages).headers.lookup p = some [] ∧
      (processPages extract pages).footers.lookup p = some [] ∧
      (processPages extract pages).cards.lookup p = some [] ∧
      (processPages extract pages).unassigned.lookup p = some [] := by
  obtain ⟨h1, h2, h3, h4⟩ := processPages_summary extract pages initMaster
  have hs := countP_isSome_split extract pages
  have hz1 : initMaster.summary.total_pages_processed = 0 := rfl
  have hz2 : initMaster.summary.pages_with_cards = 0 := rfl
  have hz3 : initMaster.summary.pages_without_cards = 0 := rfl
  have hz4 : initMaster.summary.total_cards_found = 0 := rfl
  rw [hz1] at h1
  rw [hz2] at h2
  rw [hz3] at h3
  rw [hz4] at h4
  unfold processPages
  refine ⟨by omega, by omega, by omega, by omega, by omega, ?_⟩
  intro p hp hx
  have hm := foldl_lookup_mem extract pages initMaster p hp
  rw [hx] at hm
  exact hm

/-! ### Card building: the 3-span threshold -/

theorem buildCards_length (isD isS : Char → Bool) (A : ℕ → List Span) :
    ∀ (cells : List GridCell) (n : ℕ),
      (buildCards isD isS A n cells).length =
        cells.countP fun c => decide (3 ≤ (A c.cell_id).length) := by
  intro cells
  induction cells with
  | nil => intro n; rfl
  | cons c tl ih =>
    intro n
    by_cases hc : 3 ≤ (A c.cell_id).length <;>
      simp [buildCards, hc, List.countP_cons, ih]

theorem buildCards_skip (isD isS : Char → Bool) (A : ℕ → List Span) (c : GridCell)
    (hc : ¬3 ≤ (A c.cell_id).length) :
    ∀ (pre post : List GridCell) (n : ℕ),
      buildCards isD isS A n (pre ++ c :: post) = buildCards isD isS A n (pre ++ post) := by
  intro pre
  induction pre with
  | nil => intro post n; simp [buildCards, hc]
  | cons d tl ih =>
    intro post n
    by_cases hd : 3 ≤ (A d.cell_id).length <;> simp [buildCards, hd, ih]

/-- C7: Card threshold — for any assignment dict `A`, a cell with exactly 2
assigned spans contributes no card at all (the output list is unchanged by
its presence), a cell with exactly 3 assigned spans contributes exactly
one card, and cells are independent: under any assignment dict that
differs from `A` only at some other cell id `k`, a cell with at least 3
spans still contributes exactly one card — changing the spans assigned to
one cell cannot suppress another cell's card. `isD` and `isS` are the
digit and whitespace classes of the identifier pattern; the counts do not
depend on them. -/
theorem card_threshold (isD isS : Char → Bool) (A A2 : ℕ → List Span) (k : ℕ)
    (pre post : List GridCell) (c : GridCell)
    (hagree : ∀ id, id ≠ k → A2 id = A id) (hck : c.cell_id ≠ k) :
    ((A c.cell_id).length = 2 →
      create_final_cards isD isS A (pre ++ c :: post) =
        create_final_cards isD isS A (pre ++ post)) ∧
    ((A c.cell_id).length = 3 →
      (create_final_cards isD isS A (pre ++ c :: post)).length =
        (create_final_cards isD isS A (pre ++ post)).length + 1) ∧
    (3 ≤ (A c.cell_id).length →
      (create_final_cards isD isS A2 (pre ++ c :: post)).length =
        (create_final_cards isD isS A2 (pre ++ post)).length + 1) := by
  refine ⟨?_, ?_, ?_⟩
  · intro h2
    exact buildCards_skip isD isS A c (by omega) pre post 0
  · intro h3
    show (buildCards isD isS A 0 _).length = (buildCards isD isS A 0 _).length + 1
    rw [buildCards_length, buildCards_length, List.countP_append, List.countP_append,
      List.countP_cons]
    have hd : decide (3 ≤ (A c.cell_id).length) = true := by simp [h3]
    rw [hd]
    simp
    omega
  · intro h3
    have hA2 : A2 c.cell_id = A c.cell_id := hagree c.cell_id hck
    show (buildCards isD isS A2 0 _).length = (buildCards isD isS A2 0 _).length + 1
    rw [buildCards_length, buildCards_length, List.countP_append, List.countP_append,
      List.countP_cons]
    have hd : decide (3 ≤ (A2 c.cell_id).length) = true := by rw [hA2]; simp [h3]
    rw [hd]
    simp
    omega

/-- A span used in concrete witness inputs. -/
def wSpan : Span := ⟨"t", 0, 0, 0, 0, 0, 0⟩

/-- A grid cell used in concrete witness inputs. -/
def wCell : GridCell := ⟨0, ⟨0, 0, 10, 10⟩, 1, 1⟩

/-- The assignment dict used in the C7 witness: three spans in cell 0,
nothing elsewhere. -/
def wAssign : ℕ → List Span := fun id => if id = 0 then [wSpan, wSpan, wSpan] else []

/-- Witness for C7 at a concrete input: one cell with exactly 3 spans, the
rest empty; the modified dict is the dict itself (it agrees with itself
away from `k = 5`). -/
theorem card_threshold_witness :
    ((wAssign wCell.cell_id).length = 2 →
      create_final_cards asciiDigit asciiSpace wAssign ([] ++ wCell :: []) =
        create_final_cards asciiDigit asciiSpace wAssign ([] ++ [])) ∧
    ((wAssign wCell.cell_id).length = 3 →
      (create_final_cards asciiDigit asciiSpace wAssign ([] ++ wCell :: [])).length =
        (create_final_cards asciiDigit asciiSpace wAssign ([] ++ [])).length + 1) ∧
    (3 ≤ (wAssign wCell.cell_id).length →
      (create_final_cards asciiDigit asciiSpace wAssign ([] ++ wCell :: [])).length =
        (create_final_cards asciiDigit asciiSpace wAssign ([] ++ [])).length + 1) :=
  card_threshold asciiDigit asciiSpace wAssign wAssign 5 [] [] wCell (fun _ _ => rfl)
    (by decide)

/-! ### The first-match assignment rule -/

theorem find?_eq_some_first {α : Type} (p : α → Bool) :
    ∀ (l : List α) (a : α),
      l.find? p = some a ↔
        ∃ l1 l2, l = l1 ++ a :: l2 ∧ p a = true ∧ ∀ b ∈ l1, p b = false := by
  intro l
  induction l with
  | nil => intro a; simp
  | cons x xs ih =>
    intro a
    by_cases hx : p x
    · rw [List.find?_cons_of_pos _ hx]
      constructor
      · intro h
        have hxa : x = a := by injection h
        subst hxa
        exact ⟨[], xs, rfl, hx, by intro b hb; exact absurd hb (List.not_mem_nil b)⟩
      · rintro ⟨l1, l2, heq, hpa, hall⟩
        cases l1 with
        | nil =>
          simp only [List.nil_append] at heq
          have hxa : x = a := by
            injection heq
          rw [hxa]
        | cons y ys =>
          have hxy : x = y := by
            simp only [List.cons_append] at heq
            injection heq
          have hy : p y = false := hall y (List.mem_cons_self y ys)
          rw [← hxy, hx] at hy
          exact absurd hy (by simp)
    · rw [List.find?_cons_of_neg _ hx]
      rw [ih]
      constructor
      · rintro ⟨l1, l2, heq, hpa, hall⟩
        refine ⟨x :: l1, l2, by rw [heq]; rfl, hpa, ?_⟩
        intro b hb
        rcases List.mem_cons.mp hb with hb | hb
        · rw [hb]
          exact Bool.eq_false_iff.mpr hx
        · exact hall b hb
      · rintro ⟨l1, l2, heq, hpa, hall⟩
        cases l1 with
        | nil =>
          simp only [List.nil_append] at heq
          have hxa : x = a := by injection heq
          rw [← hxa] at hpa
          exact absurd hpa (by simp [Bool.eq_false_iff.mpr hx])
        | cons y ys =>
          simp only [List.cons_append] at heq
          have hxy : x = y := by injection heq
          have hxs : xs = ys ++ a :: l2 := by injection heq
          exact ⟨ys, l2, hxs, hpa, fun b hb => hall b (List.mem_cons_of_mem y hb)⟩

theorem classify_assignments (spans : List Span) (cells : List GridCell) :
    (classify_text_spans spans cells).card_assignments =
      spans.filterMap (toAssign cells) := by
  cases cells with
  | nil =>
    show ([] : List (ℕ × Span)) = _
    symm
    rw [List.filterMap_eq_nil_iff]
    intro s _
    rfl
  | cons c0 rest => rw [classify_eq]

/-- C5: Span-to-cell assignment rule — for every span of the input and
every non-empty cell list, the span's pair appears under cell id `id` in
the assignment list exactly when `id` belongs to the first cell of the
enumeration whose bounding box, expanded by exactly 2 units on every side
with inclusive bounds, contains the span's center (all earlier cells
failing the test); a span whose center lies in no expanded box is
assigned to no cell. -/
theorem span_assignment_rule (spans : List Span) (cells : List GridCell)
    (_hc : cells ≠ []) (s : Span) (hs : s ∈ spans) (id : ℕ) :
    (id, s) ∈ (classify_text_spans spans cells).card_assignments ↔
      ∃ c pre post, cells = pre ++ c :: post ∧ c.cell_id = id ∧ inCellTol c s = true ∧
        ∀ d ∈ pre, inCellTol d s = false := by
  rw [classify_assignments]
  constructor
  · intro hmem
    obtain ⟨t, ht, htoa⟩ := List.mem_filterMap.mp hmem
    obtain ⟨c, hfind, hpair⟩ := Option.map_eq_some'.mp htoa
    have hts : t = s := congrArg Prod.snd hpair
    have hid : c.cell_id = id := congrArg Prod.fst hpair
    subst hts
    obtain ⟨l1, l2, heq, hpa, hall⟩ := (find?_eq_some_first _ cells c).mp hfind
    exact ⟨c, l1, l2, heq, hid, hpa, hall⟩
  · rintro ⟨c, pre, post, heq, hid, htol, hall⟩
    have hfind : spanFind cells s = some c :=
      (find?_eq_some_first _ cells c).mpr ⟨pre, post, heq, htol, hall⟩
    refine List.mem_filterMap.mpr ⟨s, hs, ?_⟩
    show (spanFind cells s).map _ = _
    rw [hfind]
    simp [hid]

/-- Witness for C5 at a concrete input: one span whose center lies in the
single cell's expanded box, so the pair appears under that cell's id. -/
theorem span_assignment_rule_witness :
    (0, wSpan) ∈ (classify_text_spans [wSpan] [wCell]).card_assignments ↔
      ∃ c pre post, [wCell] = pre ++ c :: post ∧ c.cell_id = 0 ∧
        inCellTol c wSpan = true ∧ ∀ d ∈ pre, inCellTol d wSpan = false :=
  span_assignment_rule [wSpan] [wCell] (by decide) wSpan (by decide) 0

/-! ### The identifier pattern -/

/-- The shape of the first captured group: exactly three uppercase letters
followed by seven digits of the class `isD`. -/
def epicShape (isD : Char → Bool) (e : List Char) : Prop :=
  e.length = 10 ∧ (e.take 3).all isUpperAZ = true ∧ (e.drop 3).all isD = true

/-- The shape of the second captured group: three nonempty slash-delimited
runs of digits of the class `isD`. -/
def partShape (isD : Char → Bool) (p : List Char) : Prop :=
  ∃ d1 d2 d3 : List Char, d1 ≠ [] ∧ d2 ≠ [] ∧ d3 ≠ [] ∧
    d1.all isD = true ∧ d2.all isD = true ∧ d3.all isD = true ∧
    p = d1 ++ '/' :: d2 ++ '/' :: d3

/-- The identifier pattern occurs at the head of the text: an epic group,
a nonempty whitespace run, a part group, then anything. -/
def matchesAt (isD isS : Char → Bool) (l : List Char) : Prop :=
  ∃ e w p rest : List Char, epicShape isD e ∧ w ≠ [] ∧ w.all isS = true ∧
    partShape isD p ∧ l = e ++ w ++ p ++ rest

/-- No ASCII digit is an ASCII whitespace character: the ASCII fragment of
the disjointness of the two Unicode classes. -/
theorem asciiDigit_not_space : ∀ c : Char, asciiDigit c = true → asciiSpace c = false := by
  intro c h
  simp only [asciiDigit, Bool.and_eq_true, decide_eq_true_eq] at h
  obtain ⟨h1, h2⟩ := h
  simp only [asciiSpace, Bool.or_eq_false_iff, decide_eq_false_iff_not]
  refine ⟨⟨⟨⟨⟨?_, ?_⟩, ?_⟩, ?_⟩, ?_⟩, ?_⟩ <;> (rintro rfl; revert h1; decide)

theorem takeWhile_append_all {α : Type} (p : α → Bool) :
    ∀ (w t : List α), w.all p = true →
      (w ++ t).takeWhile p = w ++ t.takeWhile p ∧ (w ++ t).dropWhile p = t.dropWhile p := by
  intro w
  induction w with
  | nil => intro t _; exact ⟨rfl, rfl⟩
  | cons a w ih =>
    intro t hall
    simp only [List.all_cons, Bool.and_eq_true] at hall
    obtain ⟨ha, hw⟩ := hall
    obtain ⟨ih1, ih2⟩ := ih t hw
    constructor
    · rw [List.cons_append, List.takeWhile_cons_of_pos ha, ih1, List.cons_append]
    · rw [List.cons_append, List.dropWhile_cons_of_pos ha, ih2]

theorem all_takeWhile {α : Type} (p : α → Bool) (l : List α) :
    (l.takeWhile p).all p = true := by
  rw [List.all_eq_true]
  intro x hx
  exact List.mem_takeWhile_imp hx

theorem matchGroup2_sound (isD : Char → Bool) (l p rest : List Char)
    (h : matchGroup2 isD l = some (p, rest)) :
    partShape isD p ∧ l = p ++ rest := by
  unfold matchGroup2 at h
  simp only [List.span_eq_take_drop] at h
  by_cases h1 : (l.takeWhile isD).isEmpty
  · simp [h1] at h
  · simp only [h1, if_false, Bool.false_eq_true] at h
    cases hr1 : l.dropWhile isD with
    | nil => rw [hr1] at h; exact absurd h (by simp)
    | cons a r2 =>
      rw [hr1] at h
      dsimp only at h
      by_cases ha : a = '/'
      · rw [if_pos ha] at h
        subst ha
        by_cases h2 : (r2.takeWhile isD).isEmpty
        · simp [h2] at h
        · simp only [h2, if_false, Bool.false_eq_true] at h
          cases hr3 : r2.dropWhile isD with
          | nil => rw [hr3] at h; exact absurd h (by simp)
          | cons b r4 =>
            rw [hr3] at h
            dsimp only at h
            by_cases hb : b = '/'
            · rw [if_pos hb] at h
              subst hb
              by_cases h3 : (r4.takeWhile isD).isEmpty
              · simp [h3] at h
              · simp only [h3, if_false, Bool.false_eq_true, Option.some.injEq,
                  Prod.mk.injEq] at h
                obtain ⟨hp, hrest⟩ := h
                refine ⟨⟨l.takeWhile isD, r2.takeWhile isD,
                  r4.takeWhile isD, ?_, ?_, ?_, all_takeWhile _ _,
                  all_takeWhile _ _, all_takeWhile _ _, hp.symm⟩, ?_⟩
                · intro hne; rw [hne] at h1; exact h1 rfl
                · intro hne; rw [hne] at h2; exact h2 rfl
                · intro hne; rw [hne] at h3; exact h3 rfl
                · rw [← hp, ← hrest]
                  have e1 : l = l.takeWhile isD ++ ('/' :: r2) := by
                    rw [← hr1]; exact (List.takeWhile_append_dropWhile isD l).symm
                  have e2 : r2 = r2.takeWhile isD ++ ('/' :: r4) := by
                    rw [← hr3]; exact (List.takeWhile_append_dropWhile isD r2).symm
                  have e3 : r4 = r4.takeWhile isD ++ r4.dropWhile isD :=
                    (List.takeWhile_append_dropWhile isD r4).symm
                  calc l = l.takeWhile isD ++ ('/' :: r2) := e1
                    _ = l.takeWhile isD ++
                        ('/' :: (r2.takeWhile isD ++ ('/' :: r4))) := by rw [← e2]
                    _ = l.takeWhile isD ++
                        ('/' :: (r2.takeWhile isD ++ ('/' ::
                          (r4.takeWhile isD ++ r4.dropWhile isD)))) := by
                          rw [← e3]
                    _ = (l.takeWhile isD ++ '/' :: r2.takeWhile isD ++
                        '/' :: r4.takeWhile isD) ++ r4.dropWhile isD := by
                          simp [List.append_assoc]
            · rw [if_neg hb] at h
              exact absurd h (by simp)
      · rw [if_neg ha] at h
        exact absurd h (by simp)

theorem isEmpty_false_of_ne {α : Type} (l : List α) (h : l ≠ []) : l.isEmpty = false :=
  List.isEmpty_eq_false.mpr h

theorem matchGroup2_complete (isD : Char → Bool) (hsl : isD '/' = false)
    (d1 d2 d3 rest : List Char)
    (h1 : d1 ≠ []) (h2 : d2 ≠ []) (h3 : d3 ≠ [])
    (a1 : d1.all isD = true) (a2 : d2.all isD = true)
    (a3 : d3.all isD = true) :
    (matchGroup2 isD ((d1 ++ '/' :: d2 ++ '/' :: d3) ++ rest)).isSome = true := by
  have hslash : ¬isD '/' = true := by simp [hsl]
  have e0 : (d1 ++ '/' :: d2 ++ '/' :: d3) ++ rest =
      d1 ++ ('/' :: (d2 ++ ('/' :: (d3 ++ rest)))) := by
    simp [List.append_assoc]
  rw [e0]
  unfold matchGroup2
  simp only [List.span_eq_take_drop]
  have t1 := takeWhile_append_all isD d1 ('/' :: (d2 ++ ('/' :: (d3 ++ rest)))) a1
  rw [t1.1, t1.2, List.takeWhile_cons_of_neg hslash, List.dropWhile_cons_of_neg hslash,
    List.append_nil]
  simp only [isEmpty_false_of_ne d1 h1, Bool.false_eq_true, if_false]
  have t2 := takeWhile_append_all isD d2 ('/' :: (d3 ++ rest)) a2
  rw [t2.1, t2.2, List.takeWhile_cons_of_neg hslash, List.dropWhile_cons_of_neg hslash,
    List.append_nil]
  simp only [isEmpty_false_of_ne d2 h2, Bool.false_eq_true, if_false]
  have t3 := takeWhile_append_all isD d3 rest a3
  rw [t3.1]
  have hne : (d3 ++ rest.takeWhile isD).isEmpty = false :=
    isEmpty_false_of_ne _ (by cases d3 with
      | nil => exact absurd rfl h3
      | cons a t => simp)
  simp only [hne, Bool.false_eq_true, if_false, if_true, Option.isSome_some]

theorem matchAt_sound (isD isS : Char → Bool) (l e p : List Char)
    (h : matchAt isD isS l = some (e, p)) :
    ∃ w rest : List Char, epicShape isD e ∧ w ≠ [] ∧ w.all isS = true ∧
      partShape isD p ∧ l = e ++ w ++ p ++ rest := by
  unfold matchAt at h
  simp only [List.span_eq_take_drop] at h
  by_cases hcond : (l.take 10).length = 10 ∧ ((l.take 10).take 3).all isUpperAZ = true ∧
      ((l.take 10).drop 3).all isD = true
  · rw [if_pos hcond] at h
    by_cases hemp : ((l.drop 10).takeWhile isS).isEmpty
    · simp [hemp] at h
    · simp only [hemp, Bool.false_eq_true, if_false] at h
      obtain ⟨pr, hpr, hep⟩ := Option.map_eq_some'.mp h
      obtain ⟨pg, rg⟩ := pr
      have he : e = l.take 10 := (congrArg Prod.fst hep).symm
      have hpg : p = pg := (congrArg Prod.snd hep).symm
      obtain ⟨hps, heq2⟩ := matchGroup2_sound isD _ pg rg hpr
      refine ⟨(l.drop 10).takeWhile isS, rg, ?_, ?_, all_takeWhile _ _, ?_, ?_⟩
      · rw [he]
        exact hcond
      · intro hnil
        rw [hnil] at hemp
        exact hemp rfl
      · rw [hpg]
        exact hps
      · rw [he, hpg]
        calc l = l.take 10 ++ l.drop 10 := (List.take_append_drop 10 l).symm
          _ = l.take 10 ++ ((l.drop 10).takeWhile isS ++
              (l.drop 10).dropWhile isS) := by
                rw [List.takeWhile_append_dropWhile]
          _ = l.take 10 ++ ((l.drop 10).takeWhile isS ++ (pg ++ rg)) := by
                rw [← heq2]
          _ = l.take 10 ++ (l.drop 10).takeWhile isS ++ pg ++ rg := by
                simp [List.append_assoc]
  · rw [if_neg hcond] at h
    exact absurd h (by simp)

theorem matchAt_complete (isD isS : Char → Bool)
    (hds : ∀ c, isD c = true → isS c = false) (hsl : isD '/' = false)
    (l : List Char) (h : matchesAt isD isS l) : (matchAt isD isS l).isSome = true := by
  obtain ⟨e, w, p, rest, he, hw, hwall, hp, heq⟩ := h
  obtain ⟨he1, he2, he3⟩ := he
  subst heq
  unfold matchAt
  simp only [List.span_eq_take_drop]
  have e0 : e ++ w ++ p ++ rest = e ++ (w ++ (p ++ rest)) := by
    simp [List.append_assoc]
  rw [e0]
  have ht : (e ++ (w ++ (p ++ rest))).take 10 = e := by
    rw [← he1]; exact List.take_left e _
  have hd : (e ++ (w ++ (p ++ rest))).drop 10 = w ++ (p ++ rest) := by
    rw [← he1]; exact List.drop_left e _
  rw [ht, hd]
  rw [if_pos ⟨he1, he2, he3⟩]
  obtain ⟨d1, d2, d3, h1, h2, h3, a1, a2, a3, hpeq⟩ := hp
  obtain ⟨c, d1t, rfl⟩ : ∃ c d1t, d1 = c :: d1t := by
    cases d1 with
    | nil => exact absurd rfl h1
    | cons c t => exact ⟨c, t, rfl⟩
  have hc : isD c = true := by
    rw [List.all_cons, Bool.and_eq_true] at a1
    exact a1.1
  have hcs : ¬isS c = true := by
    rw [hds c hc]
    simp
  have hpr : p ++ rest = c :: ((d1t ++ '/' :: d2 ++ '/' :: d3) ++ rest) := by
    rw [hpeq]
    simp [List.append_assoc]
  have ts := takeWhile_append_all isS w (p ++ rest) hwall
  rw [ts.1, ts.2, hpr, List.takeWhile_cons_of_neg hcs, List.dropWhile_cons_of_neg hcs,
    List.append_nil]
  simp only [isEmpty_false_of_ne w hw, Bool.false_eq_true, if_false]
  rw [← hpr, hpeq]
  have hcomp := matchGroup2_complete isD hsl (c :: d1t) d2 d3 rest h1 h2 h3 a1 a2 a3
  rw [Option.isSome_map']
  exact hcomp

theorem searchEpic_some (isD isS : Char → Bool) :
    ∀ (l e p : List Char), searchEpic isD isS l = some (e, p) →
      ∃ i, matchAt isD isS (l.drop i) = some (e, p) ∧
        ∀ j < i, matchAt isD isS (l.drop j) = none := by
  intro l
  induction l with
  | nil => intro e p h; exact absurd h (by simp [searchEpic])
  | cons c rest ih =>
    intro e p h
    unfold searchEpic at h
    cases hm : matchAt isD isS (c :: rest) with
    | some r =>
      rw [hm] at h
      dsimp only at h
      refine ⟨0, ?_, ?_⟩
      · rw [List.drop_zero]
        rw [hm, h]
      · intro j hj
        exact absurd hj (Nat.not_lt_zero j)
    | none =>
      rw [hm] at h
      dsimp only at h
      obtain ⟨i, hmi, hnone⟩ := ih e p h
      refine ⟨i + 1, ?_, ?_⟩
      · rw [List.drop_succ_cons]
        exact hmi
      · intro j hj
        cases j with
        | zero => rw [List.drop_zero]; exact hm
        | succ j2 =>
          rw [List.drop_succ_cons]
          exact hnone j2 (Nat.lt_of_succ_lt_succ hj)

theorem matchAt_nil (isD isS : Char → Bool) : matchAt isD isS [] = none := by
  unfold matchAt
  rw [if_neg]
  intro hcontra
  exact absurd hcontra.1 (by decide)

theorem searchEpic_none (isD isS : Char → Bool) :
    ∀ l : List Char, searchEpic isD isS l = none →
      ∀ i, matchAt isD isS (l.drop i) = none := by
  intro l
  induction l with
  | nil => intro _ i; rw [List.drop_nil]; exact matchAt_nil isD isS
  | cons c rest ih =>
    intro h i
    unfold searchEpic at h
    cases hm : matchAt isD isS (c :: rest) with
    | some r => rw [hm] at h; exact absurd h (by simp)
    | none =>
      rw [hm] at h
      dsimp only at h
      cases i with
      | zero => rw [List.drop_zero]; exact hm
      | succ i2 => rw [List.drop_succ_cons]; exact ih h i2

theorem buildCards_mem (isD isS : Char → Bool) (A : ℕ → List Span) :
    ∀ (cells : List GridCell) (n : ℕ) (card : Card),
      card ∈ buildCards isD isS A n cells →
      ∃ c ∈ cells, ∃ m : ℕ, 3 ≤ (A c.cell_id).length ∧ card = mkCard isD isS A c m := by
  intro cells
  induction cells with
  | nil => intro n card h; exact absurd h (List.not_mem_nil card)
  | cons c tl ih =>
    intro n card h
    by_cases hc : 3 ≤ (A c.cell_id).length
    · rw [buildCards, if_pos hc] at h
      rcases List.mem_cons.mp h with h | h
      · exact ⟨c, List.mem_cons_self c tl, n + 1, hc, h⟩
      · obtain ⟨d, hd, m, hm, hcard⟩ := ih (n + 1) card h
        exact ⟨d, List.mem_cons_of_mem c hd, m, hm, hcard⟩
    · rw [buildCards, if_neg hc] at h
      obtain ⟨d, hd, m, hm, hcard⟩ := ih n card h
      exact ⟨d, List.mem_cons_of_mem c hd, m, hm, hcard⟩

/-- C8: Identifier extraction — every card emitted by the card-building
pass carries as `raw_content` the texts of its cell's assigned spans
sorted by `(y0 ascending, x0 ascending)` and counts them in
`text_spans_count`; when the space-joined raw text contains, at some
position, a substring of exactly three uppercase letters and seven
digits, then a nonempty whitespace run, then three slash-delimited digit
runs, the card's `epic_number` and `part_number` are the two groups of
the match at the leftmost such position; when no position matches, both
fields are `none` and the card is still emitted with its raw text. The
digit and whitespace classes `\d` and `\s` of the unflagged pattern are
the interpreter's Unicode tables, taken here as arbitrary parameters
`isD` and `isS` subject only to the facts that hold of those tables in
every Unicode version: no decimal digit is whitespace, and the slash is
not a decimal digit. -/
theorem identifier_extraction (isD isS : Char → Bool)
    (hds : ∀ c, isD c = true → isS c = false) (hsl : isD '/' = false)
    (A : ℕ → List Span) (cells : List GridCell) (card : Card)
    (hcard : card ∈ create_final_cards isD isS A cells) :
    ∃ c ∈ cells, 3 ≤ (A c.cell_id).length ∧
      card.raw_content = (sortSpans (A c.cell_id)).map Span.text ∧
      card.text_spans_count = (A c.cell_id).length ∧
      ((¬∃ i, matchesAt isD isS ((joinSpace card.raw_content).data.drop i)) →
        card.epic_number = none ∧ card.part_number = none) ∧
      ((∃ i, matchesAt isD isS ((joinSpace card.raw_content).data.drop i)) →
        ∃ i e p, matchAt isD isS ((joinSpace card.raw_content).data.drop i) = some (e, p) ∧
          (∀ j < i, ¬matchesAt isD isS ((joinSpace card.raw_content).data.drop j)) ∧
          epicShape isD e ∧ partShape isD p ∧
          (∃ w rest, w ≠ [] ∧ w.all isS = true ∧
            (joinSpace card.raw_content).data.drop i = e ++ w ++ p ++ rest) ∧
          card.epic_number = some (String.mk e) ∧
          card.part_number = some (String.mk p)) := by
  obtain ⟨c, hcmem, m, hm, hcd⟩ := buildCards_mem isD isS A cells 0 card hcard
  subst hcd
  have hraw : (mkCard isD isS A c m).raw_content =
      (sortSpans (A c.cell_id)).map Span.text := rfl
  rw [hraw]
  refine ⟨c, hcmem, hm, rfl, rfl, ?_, ?_⟩
  · intro hno
    cases hres :
        searchEpic isD isS (joinSpace ((sortSpans (A c.cell_id)).map Span.text)).data with
    | none =>
      constructor
      · show (extract_epic_part isD isS _).1 = none
        unfold extract_epic_part
        rw [hres]
      · show (extract_epic_part isD isS _).2.1 = none
        unfold extract_epic_part
        rw [hres]
    | some r =>
      exfalso
      obtain ⟨e, p⟩ := r
      obtain ⟨i, hmi, _⟩ := searchEpic_some isD isS _ e p hres
      obtain ⟨w, rest, he, hw, hwall, hp, heq⟩ := matchAt_sound isD isS _ e p hmi
      exact hno ⟨i, e, w, p, rest, he, hw, hwall, hp, heq⟩
  · intro hyes
    cases hres :
        searchEpic isD isS (joinSpace ((sortSpans (A c.cell_id)).map Span.text)).data with
    | none =>
      exfalso
      obtain ⟨i, hmi⟩ := hyes
      have hns := searchEpic_none isD isS _ hres i
      have hsome := matchAt_complete isD isS hds hsl _ hmi
      rw [hns] at hsome
      exact absurd hsome (by simp)
    | some r =>
      obtain ⟨e, p⟩ := r
      obtain ⟨i, hmi, hnone⟩ := searchEpic_some isD isS _ e p hres
      obtain ⟨w, rest, he, hw, hwall, hp, heq⟩ := matchAt_sound isD isS _ e p hmi
      refine ⟨i, e, p, hmi, ?_, he, hp, ⟨w, rest, hw, hwall, heq⟩, ?_, ?_⟩
      · intro j hj hmj
        have hsome := matchAt_complete isD isS hds hsl _ hmj
        rw [hnone j hj] at hsome
        exact absurd hsome (by simp)
      · show (extract_epic_part isD isS _).1 = some (String.mk e)
        unfold extract_epic_part
        rw [hres]
      · show (extract_epic_part isD isS _).2.1 = some (String.mk p)
        unfold extract_epic_part
        rw [hres]

/-- The three spans of the C8 witness cell, in reading order. -/
def wSpanA : Span := ⟨"ABC1234567", 0, 0, 60, 8, 30, 4⟩

/-- Second witness span. -/
def wSpanB : Span := ⟨"12/34/56", 0, 10, 50, 18, 25, 14⟩

/-- Third witness span. -/
def wSpanC : Span := ⟨"Name", 0, 20, 30, 28, 15, 24⟩

/-- The assignment dict of the C8 witness. -/
def wAssign8 : ℕ → List Span := fun id => if id = 0 then [wSpanA, wSpanB, wSpanC] else []

/-- The card the C8 witness pipeline produces, with the matcher
instantiated at the ASCII fragments of the two classes (the witness text
is all ASCII). -/
def wCard8 : Card := mkCard asciiDigit asciiSpace wAssign8 wCell 1

/-- Witness for C8 at a concrete input: the ASCII fragments of the digit
and whitespace classes (which satisfy the two disjointness facts), and a
cell whose three spans join to `"ABC1234567 12/34/56 Name"`, giving EPIC
`ABC1234567` and part `12/34/56`. -/
theorem identifier_extraction_witness :
    ∃ c ∈ [wCell], 3 ≤ (wAssign8 c.cell_id).length ∧
      wCard8.raw_content = (sortSpans (wAssign8 c.cell_id)).map Span.text ∧
      wCard8.text_spans_count = (wAssign8 c.cell_id).length ∧
      ((¬∃ i, matchesAt asciiDigit asciiSpace ((joinSpace wCard8.raw_content).data.drop i)) →
        wCard8.epic_number = none ∧ wCard8.part_number = none) ∧
      ((∃ i, matchesAt asciiDigit asciiSpace ((joinSpace wCard8.raw_content).data.drop i)) →
        ∃ i e p,
          matchAt asciiDigit asciiSpace ((joinSpace wCard8.raw_content).data.drop i) =
            some (e, p) ∧
          (∀ j < i,
            ¬matchesAt asciiDigit asciiSpace ((joinSpace wCard8.raw_content).data.drop j)) ∧
          epicShape asciiDigit e ∧ partShape asciiDigit p ∧
          (∃ w rest, w ≠ [] ∧ w.all asciiSpace = true ∧
            (joinSpace wCard8.raw_content).data.drop i = e ++ w ++ p ++ rest) ∧
          wCard8.epic_number = some (String.mk e) ∧
          wCard8.part_number = some (String.mk p)) :=
  identifier_extraction asciiDigit asciiSpace asciiDigit_not_space (by decide)
    wAssign8 [wCell] wCard8 (by decide)

/-! ### Grid tiling: strictness of the sorted cluster keys -/

theorem addCluster_keys {α : Type} (k : ℤ) (v : α) :
    ∀ cs : List (ℤ × List α),
      (addCluster k v cs).map Prod.fst =
        if k ∈ cs.map Prod.fst then cs.map Prod.fst else cs.map Prod.fst ++ [k] := by
  intro cs
  induction cs with
  | nil => simp [addCluster]
  | cons p rest ih =>
    obtain ⟨k', vs⟩ := p
    by_cases h : k' = k
    · subst h
      simp [addCluster]
    · have hne : ¬k = k' := fun hcontra => h hcontra.symm
      simp only [addCluster, if_neg h, List.map_cons, ih, List.mem_cons, hne, false_or]
      by_cases hmem : k ∈ rest.map Prod.fst <;> simp [hmem]

theorem addCluster_keys_nodup {α : Type} (k : ℤ) (v : α) (cs : List (ℤ × List α))
    (h : (cs.map Prod.fst).Nodup) : ((addCluster k v cs).map Prod.fst).Nodup := by
  rw [addCluster_keys]
  by_cases hmem : k ∈ cs.map Prod.fst
  · rwa [if_pos hmem]
  · rw [if_neg hmem]
    rw [List.nodup_append]
    exact ⟨h, List.nodup_singleton k, by simpa using hmem⟩

theorem foldl_keys_nodup {α β : Type} (step : List (ℤ × List α) → β → List (ℤ × List α))
    (hstep : ∀ cs b, (cs.map Prod.fst).Nodup → ((step cs b).map Prod.fst).Nodup) :
    ∀ (l : List β) (cs : List (ℤ × List α)),
      (cs.map Prod.fst).Nodup → ((l.foldl step cs).map Prod.fst).Nodup := by
  intro l
  induction l with
  | nil => intro cs h; exact h
  | cons b tl ih => intro cs h; exact ih (step cs b) (hstep cs b h)

theorem hClusters_keys_nodup (l : List HSeg) : ((hClusters l).map Prod.fst).Nodup := by
  refine foldl_keys_nodup _ ?_ l [] (by simp)
  intro cs s h
  by_cases hc : 100 < s.width ∧ s.width < 200
  · simpa [hc] using addCluster_keys_nodup (pyRound s.y) s cs h
  · simpa [hc] using h

theorem vClusters_keys_nodup (l : List VSeg) : ((vClusters l).map Prod.fst).Nodup := by
  refine foldl_keys_nodup _ ?_ l [] (by simp)
  intro cs s h
  by_cases hc : 50 < s.height
  · simpa [hc] using addCluster_keys_nodup (pyRound s.x) s cs h
  · simpa [hc] using h

theorem hLineOfCluster_y {k : ℤ} {ss : List HSeg} {hl : HLine}
    (h : hLineOfCluster k ss = some hl) : hl.y = k := by
  cases ss with
  | nil => exact absurd h (by simp [hLineOfCluster])
  | cons s tail =>
    simp only [hLineOfCluster, Option.some.injEq] at h
    rw [← h]

theorem vLineOfCluster_x {k : ℤ} {ss : List VSeg} {vl : VLine}
    (h : vLineOfCluster k ss = some vl) : vl.x = k := by
  cases ss with
  | nil => exact absurd h (by simp [vLineOfCluster])
  | cons s tail =>
    simp only [vLineOfCluster, Option.some.injEq] at h
    rw [← h]

theorem hline_keys_sublist :
    ∀ cl : List (ℤ × List HSeg),
      ((cl.filterMap fun p => hLineOfCluster p.1 p.2).map HLine.y).Sublist
        (cl.map Prod.fst) := by
  intro cl
  induction cl with
  | nil => simp
  | cons p rest ih =>
    obtain ⟨k, ss⟩ := p
    cases h : hLineOfCluster k ss with
    | none =>
      simp only [List.filterMap_cons, h, List.map_cons]
      exact ih.cons k
    | some hl =>
      simp only [List.filterMap_cons, h, List.map_cons, hLineOfCluster_y h]
      exact ih.cons₂ k

theorem vline_keys_sublist :
    ∀ cl : List (ℤ × List VSeg),
      ((cl.filterMap fun p => vLineOfCluster p.1 p.2).map VLine.x).Sublist
        (cl.map Prod.fst) := by
  intro cl
  induction cl with
  | nil => simp
  | cons p rest ih =>
    obtain ⟨k, ss⟩ := p
    cases h : vLineOfCluster k ss with
    | none =>
      simp only [List.filterMap_cons, h, List.map_cons]
      exact ih.cons k
    | some vl =>
      simp only [List.filterMap_cons, h, List.map_cons, vLineOfCluster_x h]
      exact ih.cons₂ k

theorem detH_strict (rs : List PyRect) :
    (detH rs).Pairwise fun a b => a.y < b.y := by
  unfold detH mainHorizontal
  have hsorted := List.sorted_insertionSort hLineLE
    ((hClusters (gridHSegs rs)).filterMap fun p => hLineOfCluster p.1 p.2)
  have hperm := List.perm_insertionSort hLineLE
    ((hClusters (gridHSegs rs)).filterMap fun p => hLineOfCluster p.1 p.2)
  have hnodup0 : (((hClusters (gridHSegs rs)).filterMap fun p =>
      hLineOfCluster p.1 p.2).map HLine.y).Nodup :=
    (hClusters_keys_nodup (gridHSegs rs)).sublist (hline_keys_sublist _)
  have hnodup : ((((hClusters (gridHSegs rs)).filterMap fun p =>
      hLineOfCluster p.1 p.2).insertionSort hLineLE).map HLine.y).Nodup :=
    ((hperm.map HLine.y).nodup_iff).mpr hnodup0
  have hne : (((hClusters (gridHSegs rs)).filterMap fun p =>
      hLineOfCluster p.1 p.2).insertionSort hLineLE).Pairwise
        fun a b : HLine => a.y ≠ b.y := List.pairwise_map.mp hnodup
  exact (hsorted.and hne).imp fun hab => lt_of_le_of_ne hab.1 hab.2

theorem detV_strict (rs : List PyRect) :
    (detV rs).Pairwise fun a b => a.x < b.x := by
  unfold detV mainVertical
  have hsorted := List.sorted_insertionSort vLineLE
    ((vClusters (vertSegs rs)).filterMap fun p => vLineOfCluster p.1 p.2)
  have hperm := List.perm_insertionSort vLineLE
    ((vClusters (vertSegs rs)).filterMap fun p => vLineOfCluster p.1 p.2)
  have hnodup0 : (((vClusters (vertSegs rs)).filterMap fun p =>
      vLineOfCluster p.1 p.2).map VLine.x).Nodup :=
    (vClusters_keys_nodup (vertSegs rs)).sublist (vline_keys_sublist _)
  have hnodup : ((((vClusters (vertSegs rs)).filterMap fun p =>
      vLineOfCluster p.1 p.2).insertionSort vLineLE).map VLine.x).Nodup :=
    ((hperm.map VLine.x).nodup_iff).mpr hnodup0
  have hne : (((vClusters (vertSegs rs)).filterMap fun p =>
      vLineOfCluster p.1 p.2).insertionSort vLineLE).Pairwise
        fun a b : VLine => a.x ≠ b.x := List.pairwise_map.mp hnodup
  exact (hsorted.and hne).imp fun hab => lt_of_le_of_ne hab.1 hab.2

theorem getD_eq_get {α : Type} (l : List α) (d : α) (i : ℕ) (h : i < l.length) :
    l.getD i d = l.get ⟨i, h⟩ := by
  rw [List.getD_eq_getElem?_getD, List.getElem?_eq_getElem h]
  rfl

theorem pairwise_getD_lt_H (H : List HLine) (hs : H.Pairwise fun a b => a.y < b.y)
    (i j : ℕ) (hij : i < j) (hj : j < H.length) :
    ((H.getD i dH).y : ℚ) < ((H.getD j dH).y : ℚ) := by
  have hi : i < H.length := lt_trans hij hj
  rw [getD_eq_get H dH i hi, getD_eq_get H dH j hj]
  have hlt := List.pairwise_iff_get.mp hs ⟨i, hi⟩ ⟨j, hj⟩ hij
  exact_mod_cast hlt

theorem pairwise_getD_lt_V (V : List VLine) (hs : V.Pairwise fun a b => a.x < b.x)
    (i j : ℕ) (hij : i < j) (hj : j < V.length) :
    ((V.getD i dV).x : ℚ) < ((V.getD j dV).x : ℚ) := by
  have hi : i < V.length := lt_trans hij hj
  rw [getD_eq_get V dV i hi, getD_eq_get V dV j hj]
  have hlt := List.pairwise_iff_get.mp hs ⟨i, hi⟩ ⟨j, hj⟩ hij
  exact_mod_cast hlt

theorem adj_mono (g : ℕ → ℚ) (n : ℕ) (h : ∀ i, i + 1 ≤ n → g i < g (i + 1)) :
    ∀ d i, i + d ≤ n → g i ≤ g (i + d) := by
  intro d
  induction d with
  | zero => intro i _; exact le_refl _
  | succ d ih =>
    intro i hle
    calc g i ≤ g (i + d) := ih i (by omega)
      _ ≤ g (i + d + 1) := le_of_lt (h (i + d) (by omega))

theorem adj_mono_le (g : ℕ → ℚ) (n : ℕ) (h : ∀ i, i + 1 ≤ n → g i < g (i + 1))
    (i j : ℕ) (hij : i ≤ j) (hjn : j ≤ n) : g i ≤ g j := by
  have h2 := adj_mono g n h (j - i) i (by omega)
  have h3 : i + (j - i) = j := by omega
  rwa [h3] at h2

theorem oneD_count (g : ℕ → ℚ) :
    ∀ n : ℕ, (∀ i, i + 1 ≤ n → g i < g (i + 1)) → 1 ≤ n →
      ∀ x : ℚ, g 0 ≤ x → x < g n →
        ((List.range n).countP fun i => decide (g i ≤ x) && decide (x < g (i + 1))) = 1 := by
  intro n
  induction n with
  | zero => intro _ h1; exact absurd h1 (by omega)
  | succ n ih =>
    intro hmono h1 x h0 hx
    by_cases hn : n = 0
    · subst hn
      rw [List.range_succ]
      simp [List.countP_cons, h0, hx]
    · have h1n : 1 ≤ n := by omega
      rw [List.range_succ, List.countP_append]
      by_cases hcase : x < g n
      · have hc0 := ih (fun i hi => hmono i (by omega)) h1n x h0 hcase
        have hlast :
            (List.countP (fun i => decide (g i ≤ x) && decide (x < g (i + 1))) [n]) = 0 := by
          simp [List.countP_cons, not_le.mpr hcase]
        rw [hc0, hlast]
      · have hgn : g n ≤ x := not_lt.mp hcase
        have hlast :
            (List.countP (fun i => decide (g i ≤ x) && decide (x < g (i + 1))) [n]) = 1 := by
          simp [List.countP_cons, hgn, hx]
        have hzero :
            ((List.range n).countP fun i => decide (g i ≤ x) && decide (x < g (i + 1))) = 0 := by
          rw [List.countP_eq_zero]
          intro i hi
          rw [List.mem_range] at hi
          have hle : g (i + 1) ≤ g n := adj_mono_le g (n + 1) hmono (i + 1) n (by omega) (by omega)
          simp only [Bool.and_eq_true, decide_eq_true_eq, not_and]
          intro _
          exact not_lt.mpr (le_trans hle hgn)
        rw [hzero, hlast]

theorem countP_flatMap {α β : Type} (f : α → List β) (p : β → Bool) :
    ∀ l : List α, (l.flatMap f).countP p = (l.map fun a => (f a).countP p).sum := by
  intro l
  induction l with
  | nil => rfl
  | cons a tl ih =>
    rw [List.flatMap_cons, List.countP_append, List.map_cons, List.sum_cons, ih]

theorem countP_and_const {β : Type} (l : List β) (q : β → Bool) (b : Bool) :
    (l.countP fun a => q a && b) = if b = true then l.countP q else 0 := by
  cases b
  · simp
  · simp

theorem sum_map_ite {β : Type} (l : List β) (q : β → Bool) (c : ℕ) :
    (l.map fun a => if q a = true then c else 0).sum = c * l.countP q := by
  induction l with
  | nil => simp
  | cons a tl ih =>
    rw [List.map_cons, List.sum_cons, ih, List.countP_cons]
    cases hq : q a
    · simp [hq]
    · simp only [hq, if_true, Nat.mul_succ]
      omega

theorem range_flatMap_id :
    ∀ r c : ℕ, ((List.range r).flatMap fun i => (List.range c).map fun j => i * c + j) =
      List.range (r * c) := by
  intro r c
  induction r with
  | zero => simp
  | succ r ih =>
    rw [List.range_succ, List.flatMap_append, ih, List.flatMap_cons, List.flatMap_nil,
      List.append_nil, Nat.succ_mul, List.range_add]

/-- Half-open containment of a point in a cell's bounding box, the
formalization of "the cell covers the point" used to state tiling with
no gaps and no overlaps (shared edges belong to the cell on their
right/bottom side). -/
def containsB (x y : ℚ) (c : GridCell) : Bool :=
  decide (c.bbox.x0 ≤ x) && decide (x < c.bbox.x1) &&
  decide (c.bbox.y0 ≤ y) && decide (y < c.bbox.y1)

theorem makeCells_eq (H : List HLine) (V : List VLine)
    (hH : 2 ≤ H.length) (hV : 2 ≤ V.length) :
    makeCells H V = (List.range (H.length - 1)).flatMap fun row =>
      (List.range (V.length - 1)).map fun col =>
        { cell_id := row * (V.length - 1) + col
          bbox := ⟨((V.getD col dV).x : ℚ), ((H.getD row dH).y : ℚ),
                   ((V.getD (col + 1) dV).x : ℚ), ((H.getD (row + 1) dH).y : ℚ)⟩
          row := row + 1
          col := col + 1 } := by
  unfold makeCells
  rw [if_pos ⟨hH, hV⟩]

theorem makeCells_spec (H : List HLine) (V : List VLine)
    (hH : 2 ≤ H.length) (hV : 2 ≤ V.length)
    (hsH : H.Pairwise fun a b => a.y < b.y)
    (hsV : V.Pairwise fun a b => a.x < b.x) :
    (makeCells H V).map GridCell.cell_id =
      List.range ((H.length - 1) * (V.length - 1)) ∧
    (∀ c ∈ makeCells H V,
      c.cell_id = (c.row - 1) * (V.length - 1) + (c.col - 1) ∧
      1 ≤ c.row ∧ c.row ≤ H.length - 1 ∧ 1 ≤ c.col ∧ c.col ≤ V.length - 1) ∧
    (∀ x y : ℚ,
      ((V.getD 0 dV).x : ℚ) ≤ x → x < ((V.getD (V.length - 1) dV).x : ℚ) →
      ((H.getD 0 dH).y : ℚ) ≤ y → y < ((H.getD (H.length - 1) dH).y : ℚ) →
      (makeCells H V).countP (containsB x y) = 1) ∧
    (∀ c ∈ makeCells H V, ∀ x y : ℚ, containsB x y c = true →
      ((V.getD 0 dV).x : ℚ) ≤ x ∧ x < ((V.getD (V.length - 1) dV).x : ℚ) ∧
      ((H.getD 0 dH).y : ℚ) ≤ y ∧ y < ((H.getD (H.length - 1) dH).y : ℚ)) := by
  have hVadj : ∀ i, i + 1 ≤ V.length - 1 →
      ((V.getD i dV).x : ℚ) < ((V.getD (i + 1) dV).x : ℚ) :=
    fun i hi => pairwise_getD_lt_V V hsV i (i + 1) (by omega) (by omega)
  have hHadj : ∀ i, i + 1 ≤ H.length - 1 →
      ((H.getD i dH).y : ℚ) < ((H.getD (i + 1) dH).y : ℚ) :=
    fun i hi => pairwise_getD_lt_H H hsH i (i + 1) (by omega) (by omega)
  rw [makeCells_eq H V hH hV]
  refine ⟨?_, ?_, ?_, ?_⟩
  · rw [List.map_flatMap]
    have hfn : (fun row => (((List.range (V.length - 1)).map fun col =>
        ({ cell_id := row * (V.length - 1) + col
           bbox := ⟨((V.getD col dV).x : ℚ), ((H.getD row dH).y : ℚ),
                    ((V.getD (col + 1) dV).x : ℚ), ((H.getD (row + 1) dH).y : ℚ)⟩
           row := row + 1
           col := col + 1 } : GridCell)).map GridCell.cell_id)) =
        fun row => (List.range (V.length - 1)).map fun col =>
          row * (V.length - 1) + col := by
      funext row
      rw [List.map_map]
      rfl
    rw [hfn, range_flatMap_id]
  · intro c hc
    obtain ⟨row, hrow, hc2⟩ := List.mem_flatMap.mp hc
    obtain ⟨col, hcol, hceq⟩ := List.mem_map.mp hc2
    rw [List.mem_range] at hrow hcol
    subst hceq
    refine ⟨?_, ?_, ?_, ?_, ?_⟩
    · show row * (V.length - 1) + col = (row + 1 - 1) * (V.length - 1) + (col + 1 - 1)
      simp
    · show 1 ≤ row + 1
      omega
    · show row + 1 ≤ H.length - 1
      omega
    · show 1 ≤ col + 1
      omega
    · show col + 1 ≤ V.length - 1
      omega
  · intro x y hx0 hx1 hy0 hy1
    rw [countP_flatMap]
    have hinner : ∀ row,
        (((List.range (V.length - 1)).map fun col =>
          ({ cell_id := row * (V.length - 1) + col
             bbox := ⟨((V.getD col dV).x : ℚ), ((H.getD row dH).y : ℚ),
                      ((V.getD (col + 1) dV).x : ℚ), ((H.getD (row + 1) dH).y : ℚ)⟩
             row := row + 1
             col := col + 1 } : GridCell)).countP (containsB x y)) =
        if (decide (((H.getD row dH).y : ℚ) ≤ y) &&
            decide (y < ((H.getD (row + 1) dH).y : ℚ))) = true then
          (List.range (V.length - 1)).countP fun col =>
            decide (((V.getD col dV).x : ℚ) ≤ x) &&
            decide (x < ((V.getD (col + 1) dV).x : ℚ))
        else 0 := by
      intro row
      rw [List.countP_map]
      have hcg : ((List.range (V.length - 1)).countP
          ((containsB x y) ∘ fun col =>
            ({ cell_id := row * (V.length - 1) + col
               bbox := ⟨((V.getD col dV).x : ℚ), ((H.getD row dH).y : ℚ),
                        ((V.getD (col + 1) dV).x : ℚ), ((H.getD (row + 1) dH).y : ℚ)⟩
               row := row + 1
               col := col + 1 } : GridCell))) =
          (List.range (V.length - 1)).countP fun col =>
            (decide (((V.getD col dV).x : ℚ) ≤ x) &&
             decide (x < ((V.getD (col + 1) dV).x : ℚ))) &&
            (decide (((H.getD row dH).y : ℚ) ≤ y) &&
             decide (y < ((H.getD (row + 1) dH).y : ℚ))) := by
        refine List.countP_congr ?_
        intro col _
        show containsB x y _ = true ↔ _
        simp only [containsB, Bool.and_eq_true, decide_eq_true_eq]
        tauto
      rw [hcg, countP_and_const]
    have hmap : ((List.range (H.length - 1)).map fun row =>
        (((List.range (V.length - 1)).map fun col =>
          ({ cell_id := row * (V.length - 1) + col
             bbox := ⟨((V.getD col dV).x : ℚ), ((H.getD row dH).y : ℚ),
                      ((V.getD (col + 1) dV).x : ℚ), ((H.getD (row + 1) dH).y : ℚ)⟩
             row := row + 1
             col := col + 1 } : GridCell)).countP (containsB x y))) =
        (List.range (H.length - 1)).map fun row =>
          if (decide (((H.getD row dH).y : ℚ) ≤ y) &&
              decide (y < ((H.getD (row + 1) dH).y : ℚ))) = true then
            (List.range (V.length - 1)).countP fun col =>
              decide (((V.getD col dV).x : ℚ) ≤ x) &&
              decide (x < ((V.getD (col + 1) dV).x : ℚ))
          else 0 :=
      List.map_congr_left fun row _ => hinner row
    rw [hmap, sum_map_ite]
    have hcA : ((List.range (V.length - 1)).countP fun col =>
        decide (((V.getD col dV).x : ℚ) ≤ x) &&
        decide (x < ((V.getD (col + 1) dV).x : ℚ))) = 1 :=
      oneD_count (fun i => ((V.getD i dV).x : ℚ)) (V.length - 1) hVadj (by omega) x hx0 hx1
    have hrows : ((List.range (H.length - 1)).countP fun row =>
        decide (((H.getD row dH).y : ℚ) ≤ y) &&
        decide (y < ((H.getD (row + 1) dH).y : ℚ))) = 1 :=
      oneD_count (fun i => ((H.getD i dH).y : ℚ)) (H.length - 1) hHadj (by omega) y hy0 hy1
    rw [hcA, hrows]
  · intro c hc x y hcont
    obtain ⟨row, hrow, hc2⟩ := List.mem_flatMap.mp hc
    obtain ⟨col, hcol, hceq⟩ := List.mem_map.mp hc2
    rw [List.mem_range] at hrow hcol
    subst hceq
    simp only [containsB, Bool.and_eq_true, decide_eq_true_eq] at hcont
    obtain ⟨⟨⟨h1, h2⟩, h3⟩, h4⟩ := hcont
    refine ⟨?_, ?_, ?_, ?_⟩
    · exact le_trans (adj_mono_le (fun i => ((V.getD i dV).x : ℚ)) (V.length - 1) hVadj
        0 col (by omega) (by omega)) h1
    · exact lt_of_lt_of_le h2 (adj_mono_le (fun i => ((V.getD i dV).x : ℚ)) (V.length - 1)
        hVadj (col + 1) (V.length - 1) (by omega) (by omega))
    · exact le_trans (adj_mono_le (fun i => ((H.getD i dH).y : ℚ)) (H.length - 1) hHadj
        0 row (by omega) (by omega)) h3
    · exact lt_of_lt_of_le h4 (adj_mono_le (fun i => ((H.getD i dH).y : ℚ)) (H.length - 1)
        hHadj (row + 1) (H.length - 1) (by omega) (by omega))

/-- C4: Grid tiling and cell_id bijection — for every successfully detected
grid (at least 2 sorted horizontal and 2 sorted vertical grid lines), the
`rows = H-1` by `cols = V-1` cells carry `cell_id = row*cols + col` over
1-based display coordinates, the cell ids enumerate `[0, rows*cols)`
exactly once in row-major order (a bijection from (row, col) pairs), and
the cells exactly tile the rectangle spanned by the grid-line positions:
every point of the half-open bounding rectangle lies in exactly one
cell's half-open bounding box, and no cell's box reaches outside the
rectangle — no gaps and no overlaps. -/
theorem grid_tiling (rs : List PyRect)
    (hH : 2 ≤ (detect_grid_from_rectangles rs).main_horizontal.length)
    (hV : 2 ≤ (detect_grid_from_rectangles rs).main_vertical.length) :
    ((detect_grid_from_rectangles rs).all_grid_cells.map GridCell.cell_id =
      List.range (((detect_grid_from_rectangles rs).main_horizontal.length - 1) *
        ((detect_grid_from_rectangles rs).main_vertical.length - 1))) ∧
    (∀ c ∈ (detect_grid_from_rectangles rs).all_grid_cells,
      c.cell_id = (c.row - 1) * ((detect_grid_from_rectangles rs).main_vertical.length - 1) +
        (c.col - 1) ∧
      1 ≤ c.row ∧ c.row ≤ (detect_grid_from_rectangles rs).main_horizontal.length - 1 ∧
      1 ≤ c.col ∧ c.col ≤ (detect_grid_from_rectangles rs).main_vertical.length - 1) ∧
    (∀ x y : ℚ,
      (((detect_grid_from_rectangles rs).main_vertical.getD 0 dV).x : ℚ) ≤ x →
      x < (((detect_grid_from_rectangles rs).main_vertical.getD
        ((detect_grid_from_rectangles rs).main_vertical.length - 1) dV).x : ℚ) →
      (((detect_grid_from_rectangles rs).main_horizontal.getD 0 dH).y : ℚ) ≤ y →
      y < (((detect_grid_from_rectangles rs).main_horizontal.getD
        ((detect_grid_from_rectangles rs).main_horizontal.length - 1) dH).y : ℚ) →
      (detect_grid_from_rectangles rs).all_grid_cells.countP (containsB x y) = 1) ∧
    (∀ c ∈ (detect_grid_from_rectangles rs).all_grid_cells, ∀ x y : ℚ,
      containsB x y c = true →
      (((detect_grid_from_rectangles rs).main_vertical.getD 0 dV).x : ℚ) ≤ x ∧
      x < (((detect_grid_from_rectangles rs).main_vertical.getD
        ((detect_grid_from_rectangles rs).main_vertical.length - 1) dV).x : ℚ) ∧
      (((detect_grid_from_rectangles rs).main_horizontal.getD 0 dH).y : ℚ) ≤ y ∧
      y < (((detect_grid_from_rectangles rs).main_horizontal.getD
        ((detect_grid_from_rectangles rs).main_horizontal.length - 1) dH).y : ℚ)) :=
  makeCells_spec (detH rs) (detV rs) hH hV (detH_strict rs) (detV_strict rs)

/-- The concrete page of the C4 witness: two horizontal card-separator
segments at `y = 100` and `y = 286` of width 150 and two vertical risers
at `x = 50` and `x = 120` of height 80 — one reconstructible grid cell. -/
def wRects : List PyRect :=
  [⟨0, 100, 150, 100, 150, 0, 0⟩, ⟨0, 286, 150, 286, 150, 0, 0⟩,
   ⟨50, 100, 50, 180, 0, 80, 0⟩, ⟨120, 100, 120, 180, 0, 80, 0⟩]

/-- Witness for C4 on the one-cell example grid. -/
theorem grid_tiling_witness :
    ((detect_grid_from_rectangles wRects).all_grid_cells.map GridCell.cell_id =
      List.range (((detect_grid_from_rectangles wRects).main_horizontal.length - 1) *
        ((detect_grid_from_rectangles wRects).main_vertical.length - 1))) ∧
    (∀ c ∈ (detect_grid_from_rectangles wRects).all_grid_cells,
      c.cell_id = (c.row - 1) * ((detect_grid_from_rectangles wRects).main_vertical.length - 1) +
        (c.col - 1) ∧
      1 ≤ c.row ∧ c.row ≤ (detect_grid_from_rectangles wRects).main_horizontal.length - 1 ∧
      1 ≤ c.col ∧ c.col ≤ (detect_grid_from_rectangles wRects).main_vertical.length - 1) ∧
    (∀ x y : ℚ,
      (((detect_grid_from_rectangles wRects).main_vertical.getD 0 dV).x : ℚ) ≤ x →
      x < (((detect_grid_from_rectangles wRects).main_vertical.getD
        ((detect_grid_from_rectangles wRects).main_vertical.length - 1) dV).x : ℚ) →
      (((detect_grid_from_rectangles wRects).main_horizontal.getD 0 dH).y : ℚ) ≤ y →
      y < (((detect_grid_from_rectangles wRects).main_horizontal.getD
        ((detect_grid_from_rectangles wRects).main_horizontal.length - 1) dH).y : ℚ) →
      (detect_grid_from_rectangles wRects).all_grid_cells.countP (containsB x y) = 1) ∧
    (∀ c ∈ (detect_grid_from_rectangles wRects).all_grid_cells, ∀ x y : ℚ,
      containsB x y c = true →
      (((detect_grid_from_rectangles wRects).main_vertical.getD 0 dV).x : ℚ) ≤ x ∧
      x < (((detect_grid_from_rectangles wRects).main_vertical.getD
        ((detect_grid_from_rectangles wRects).main_vertical.length - 1) dV).x : ℚ) ∧
      (((detect_grid_from_rectangles wRects).main_horizontal.getD 0 dH).y : ℚ) ≤ y ∧
      y < (((detect_grid_from_rectangles wRects).main_horizontal.getD
        ((detect_grid_from_rectangles wRects).main_horizontal.length - 1) dH).y : ℚ)) :=
  grid_tiling wRects (by decide) (by decide)

end VoterData
